import Mathlib

/-!
Verification development for the GameLISP toolchain (lexer, compiler,
stack VM) of the game-lisp repository. The JavaScript sources under
src/js are embedded shallowly:

* JavaScript numbers are modelled as exact rationals with an explicit
  NaN (`JSNum := Option ℚ`, `none` = NaN). IEEE-754 rounding and the
  infinities are not modelled; no theorem below depends on rounding.
* JavaScript runtime values that can sit on the VM value stack or in
  the constant pool are modelled by `JSVal`: a language `Value`, a raw
  host string, a raw host number, or the host `undefined`.
* A JavaScript `throw` is modelled as `Except.error ()`; an Error
  *value* of the language (class ErrorValue) is an ordinary `Value`.
* Host callables (native functions) are modelled by an identifier into
  a host table `host : ℕ → List JSVal → JSVal`; the convention is that
  a host return of `JSVal.undefined` is the JavaScript `undefined` return.
-/

/-- A JavaScript number: an exact rational, or NaN (`none`). -/
def JSNum : Type := Option ℚ

instance : DecidableEq JSNum := inferInstanceAs (DecidableEq (Option ℚ))

instance : Repr JSNum := inferInstanceAs (Repr (Option ℚ))

def jsAdd (a b : JSNum) : JSNum :=
  match a, b with
  | some x, some y => some (x + y)
  | _, _ => none

def jsSub (a b : JSNum) : JSNum :=
  match a, b with
  | some x, some y => some (x - y)
  | _, _ => none

def jsMul (a b : JSNum) : JSNum :=
  match a, b with
  | some x, some y => some (x * y)
  | _, _ => none

/-- JavaScript division. The zero branch is unreachable from value.js,
whose div/fdiv check the divisor for 0 before dividing. -/
def jsDiv (a b : JSNum) : JSNum :=
  match a, b with
  | some x, some y => if y = 0 then none else some (x / y)
  | _, _ => none

/-- Truncation toward zero, as used by the JavaScript % operator. -/
def jsTruncQ (q : ℚ) : ℚ :=
  if 0 ≤ q then (⌊q⌋ : ℚ) else (⌈q⌉ : ℚ)

/-- JavaScript remainder: x % y = x - y * trunc(x / y); y = 0 gives NaN. -/
def jsMod (a b : JSNum) : JSNum :=
  match a, b with
  | some x, some y => if y = 0 then none else some (x - y * jsTruncQ (x / y))
  | _, _ => none

def jsNeg (a : JSNum) : JSNum := Option.map (fun x => -x) a

/-- Math.floor, NaN-propagating. -/
def jsFloor (a : JSNum) : JSNum := Option.map (fun x => (⌊x⌋ : ℚ)) a

/-- JavaScript <: false whenever an operand is NaN. -/
def jsLt (a b : JSNum) : Bool :=
  match a, b with
  | some x, some y => decide (x < y)
  | _, _ => false

def jsGt (a b : JSNum) : Bool :=
  match a, b with
  | some x, some y => decide (x > y)
  | _, _ => false

/-- JavaScript ===: false whenever an operand is NaN. -/
def jsEqNum (a b : JSNum) : Bool :=
  match a, b with
  | some x, some y => decide (x = y)
  | _, _ => false

/-- JavaScript `index >= n` with a number index (false for NaN). -/
def jsGeLen (b : JSNum) (n : ℕ) : Bool :=
  match b with
  | some q => decide ((n : ℚ) ≤ q)
  | none => false

/-- Rendering of a JavaScript number for template strings. Integral
values print exactly as in JavaScript; the decimal expansion of
non-integral values is approximated (no theorem inspects it). -/
def jsNumToString (a : JSNum) : String :=
  match a with
  | none => "NaN"
  | some q => if q.den = 1 then toString q.num else toString q.num ++ "/" ++ toString q.den

/-- JavaScript string comparison (false if either side is undefined,
since a relational comparison with undefined goes through NaN). -/
def jsStrLt (a b : Option String) : Bool :=
  match a, b with
  | some x, some y => decide (x < y)
  | _, _ => false

/-- String coercion of a possibly-undefined string payload, as done by
the + operator in a template or concatenation position. -/
def jsStrCoerce (a : Option String) : String :=
  match a with
  | some s => s
  | none => "undefined"

/-- JavaScript s[i]: the one-character string at a canonical, in-range
integer index, and undefined (`none`) otherwise - in particular for
every negative, fractional or NaN index. -/
def jsStringIndex (s : String) (b : JSNum) : Option String :=
  match b with
  | some q =>
      if q.den = 1 ∧ 0 ≤ q.num ∧ q.num < (s.length : ℤ) then
        some (String.singleton (s.toList.getD q.num.toNat ' '))
      else
        none
  | none => none

/-- The runtime Value variants of value.js (class hierarchy rooted at
Value). ARRAY and DICT have no working constructor in the source
(ArrayValue lacks the super call) and are omitted; UndefinedValue is
referenced by vm.js but defined nowhere in the repository, so there is
no Undefined variant either (see the VM embedding below).
FunctionValue stores its name, parameter names and code array;
NativeFunctionValue stores a host-table identifier and its arity;
TypeValue stores the target tag and a host identifier for its caster. -/
inductive Value where
  | bool (b : Bool)
  | num (n : JSNum)
  | str (s : Option String)
  | fn (name : String) (args : List String) (code : List Int)
  | native (fnId : ℕ) (arity : Int)
  | type (target : ℕ) (casterId : ℕ)
  | err (msg : String)
deriving DecidableEq, Repr

/-- ValueType tags (value.js): BOOL 0, NUMBER 1, STRING 2, FUNCTION 3,
NATIVE_FUNCTION 4, TYPE 8, ERROR 255. -/
def Value.getType : Value → ℕ
  | .bool _ => 0
  | .num _ => 1
  | .str _ => 2
  | .fn _ _ _ => 3
  | .native _ _ => 4
  | .type _ _ => 8
  | .err _ => 255

/-- A JavaScript runtime value as it appears on the VM stack, in an
environment or in the constant pool: a language Value object, a raw
string (identifier constants), a raw number (the saved pc pushed by
pushFrame), or undefined. -/
inductive JSVal where
  | val (v : Value)
  | str (s : String)
  | raw (q : JSNum)
  | undefined
deriving DecidableEq, Repr

/-- toString() of a Value. ErrorValue.toString calls getValue(), which
throws the wrapped message; every other variant renders a string. The
host-function name in NativeFunctionValue.toString is not modelled
(rendered empty). -/
def Value.toStr : Value → Except Unit String
  | .bool b => .ok (if b then "true" else "false")
  | .num n => .ok (jsNumToString n)
  | .str s => .ok (jsStrCoerce s)
  | .fn name args _ => .ok (name ++ "(" ++ String.join (args.map (fun a => a ++ ", ")) ++ ")")
  | .native _ arity =>
      .ok ("<native_function , " ++ (if arity = -1 then toString arity else "...") ++ " args>")
  | .type target _ => .ok ("<type \"" ++ toString target ++ "\">")
  | .err _ => .error ()

/-- Template-string rendering of an arbitrary JavaScript value. -/
def JSVal.toStr : JSVal → Except Unit String
  | .val v => v.toStr
  | .str s => .ok s
  | .raw q => .ok (jsNumToString q)
  | .undefined => .ok "undefined"

/-- The default binary error result of the Value base class:
ErrorValue("cannot perform LHS op RHS"). Building the message renders
both operands, so it throws when either is an Error value. -/
def binErrMsg (l : Value) (op : String) (rhs : JSVal) : Except Unit Value := do
  let ls ← l.toStr
  let rs ← rhs.toStr
  .ok (.err ("cannot perform " ++ ls ++ " " ++ op ++ " " ++ rs))

/-- String.prototype.repeat with a JavaScript count: undefined receiver
throws; NaN count is 0; a negative count is a RangeError; otherwise the
count truncates. -/
def jsRepeat (sq : Option String) (a : JSNum) : Except Unit Value :=
  match sq with
  | none => .error ()
  | some s =>
      match a with
      | none => .ok (.str (some ""))
      | some q =>
          if q < 0 then .error ()
          else .ok (.str (some (String.join (List.replicate (⌊q⌋).toNat s))))

/-- Value.add: Numbers add Numbers, Strings concatenate Strings (with
undefined payloads coerced); Number and String first call
rhs.getType(), which throws on a non-Value; everything else falls to
the base-class error template. -/
def Value.add : Value → JSVal → Except Unit Value
  | .num a, .val (.num b) => .ok (.num (jsAdd a b))
  | .num a, .val vb => binErrMsg (.num a) "+" (.val vb)
  | .num _, _ => .error ()
  | .str sp, .val (.str sq) => .ok (.str (some (jsStrCoerce sp ++ jsStrCoerce sq)))
  | .str sp, .val vb => binErrMsg (.str sp) "+" (.val vb)
  | .str _, _ => .error ()
  | l, rhs => binErrMsg l "+" rhs

def Value.sub : Value → JSVal → Except Unit Value
  | .num a, .val (.num b) => .ok (.num (jsSub a b))
  | .num a, .val vb => binErrMsg (.num a) "-" (.val vb)
  | .num _, _ => .error ()
  | l, rhs => binErrMsg l "-" rhs

/-- NumberValue.mul fetches rhs.getType() and rhs.getValue() up front
(the latter throws when rhs is an Error value), then multiplies a
Number or repeats a String. -/
def Value.mul : Value → JSVal → Except Unit Value
  | .num a, .val vb =>
      match vb with
      | .err _ => .error ()
      | .num b => .ok (.num (jsMul a b))
      | .str sq => jsRepeat sq a
      | _ => binErrMsg (.num a) "*" (.val vb)
  | .num _, _ => .error ()
  | l, rhs => binErrMsg l "*" rhs

/-- NumberValue.div: rhs.getValue() first (throws on an Error value),
then the zero check, then exact division. -/
def Value.div : Value → JSVal → Except Unit Value
  | .num a, .val vb =>
      match vb with
      | .err _ => .error ()
      | .num b =>
          if b = some 0 then .ok (.err "division by zero")
          else .ok (.num (jsDiv a b))
      | _ => binErrMsg (.num a) "/" (.val vb)
  | .num _, _ => .error ()
  | l, rhs => binErrMsg l "/" rhs

/-- NumberValue.fdiv: like div but flooring; its fallthrough calls
super.div, so the error template uses "/" (as in the source). -/
def Value.fdiv : Value → JSVal → Except Unit Value
  | .num a, .val vb =>
      match vb with
      | .err _ => .error ()
      | .num b =>
          if b = some 0 then .ok (.err "division by zero")
          else .ok (.num (jsFloor (jsDiv a b)))
      | _ => binErrMsg (.num a) "/" (.val vb)
  | .num _, _ => .error ()
  | l, rhs => binErrMsg l "//" rhs

/-- NumberValue.mod: rhs.getValue() first, then x % y with no zero
check - a zero divisor flows into the JavaScript % operator (NaN). -/
def Value.mod : Value → JSVal → Except Unit Value
  | .num a, .val vb =>
      match vb with
      | .err _ => .error ()
      | .num b => .ok (.num (jsMod a b))
      | _ => binErrMsg (.num a) "%" (.val vb)
  | .num _, _ => .error ()
  | l, rhs => binErrMsg l "%" rhs

def Value.negate : Value → Except Unit Value
  | .num a => .ok (.num (jsNeg a))
  | v => do
      let s ← v.toStr
      .ok (.err ("cannot perform -" ++ s))

def Value.vnot : Value → Except Unit Value
  | .bool b => .ok (.bool (!b))
  | v => do
      let s ← v.toStr
      .ok (.err ("cannot perform !" ++ s))

/-- Value.eq: Bool/Number/String compare against the same variant
(calling rhs.getType(), which throws on a non-Value); every other
variant uses the base default, Bool(false), without touching rhs. -/
def Value.eq : Value → JSVal → Except Unit Value
  | .bool a, .val (.bool b) => .ok (.bool (a == b))
  | .bool _, .val _ => .ok (.bool false)
  | .bool _, _ => .error ()
  | .num a, .val (.num b) => .ok (.bool (jsEqNum a b))
  | .num _, .val _ => .ok (.bool false)
  | .num _, _ => .error ()
  | .str sp, .val (.str sq) => .ok (.bool (decide (sp = sq)))
  | .str _, .val _ => .ok (.bool false)
  | .str _, _ => .error ()
  | _, _ => .ok (.bool false)

/-- Value.neq: this.eq(rhs).not(). -/
def Value.neq (l : Value) (rhs : JSVal) : Except Unit Value := do
  let e ← l.eq rhs
  e.vnot

def Value.lt : Value → JSVal → Except Unit Value
  | .num a, .val (.num b) => .ok (.bool (jsLt a b))
  | .num a, .val vb => binErrMsg (.num a) "<" (.val vb)
  | .num _, _ => .error ()
  | .str sp, .val (.str sq) => .ok (.bool (jsStrLt sp sq))
  | .str sp, .val vb => binErrMsg (.str sp) "<" (.val vb)
  | .str _, _ => .error ()
  | l, rhs => binErrMsg l "<" rhs

def Value.gt : Value → JSVal → Except Unit Value
  | .num a, .val (.num b) => .ok (.bool (jsGt a b))
  | .num a, .val vb => binErrMsg (.num a) ">" (.val vb)
  | .num _, _ => .error ()
  | .str sp, .val (.str sq) => .ok (.bool (jsStrLt sq sp))
  | .str sp, .val vb => binErrMsg (.str sp) ">" (.val vb)
  | .str _, _ => .error ()
  | l, rhs => binErrMsg l ">" rhs

/-- Value.lteq: gt first, pass an Error value through, else not(). -/
def Value.lteq (l : Value) (rhs : JSVal) : Except Unit Value := do
  let less ← l.gt rhs
  if less.getType = 255 then .ok less else less.vnot

/-- Value.gteq: lt first, pass an Error value through, else not(). -/
def Value.gteq (l : Value) (rhs : JSVal) : Except Unit Value := do
  let greater ← l.lt rhs
  if greater.getType = 255 then .ok greater else greater.vnot

/-- Value.is: a Type lhs classifies rhs; otherwise a Type rhs
classifies lhs; otherwise the error template. Both Type paths call
getType() on the other operand, which throws on a non-Value. -/
def Value.is : Value → JSVal → Except Unit Value
  | .type t _, .val vb => .ok (.bool (decide (vb.getType = t)))
  | .type _ _, _ => .error ()
  | l, .val (.type t _) => .ok (.bool (decide (l.getType = t)))
  | l, .val vb => binErrMsg l "is" (.val vb)
  | _, _ => .error ()

/-- The base-class dot error: ErrorValue("cannot acces LHS.RHS")
(typo as in the source). -/
def binDotErr (l : Value) (rhs : JSVal) : Except Unit Value := do
  let ls ← l.toStr
  let rs ← rhs.toStr
  .ok (.err ("cannot acces " ++ ls ++ "." ++ rs))

/-- StringValue.dot: with a Number rhs, indexes the payload. The guard
is only `index >= str.length`; anything below that (negative,
fractional, NaN) reaches s[index] and wraps the possibly-undefined
result in a String value. An undefined payload throws on .length. -/
def Value.dot : Value → JSVal → Except Unit Value
  | .str sp, .val (.num b) =>
      match sp with
      | none => .error ()
      | some s =>
          if jsGeLen b s.length then
            .ok (.err ("\"" ++ s ++ "\"." ++ jsNumToString b ++ " is out of bounds"))
          else
            .ok (.str (jsStringIndex s b))
  | .str sp, .val vb => binDotErr (.str sp) (.val vb)
  | .str _, _ => .error ()
  | l, rhs => binDotErr l rhs

/-- NativeFunctionValue.toString (the host-function name is not
modelled; the source ternary renders the arity when it is -1 and "..."
otherwise). -/
def nativeToString (arity : Int) : String :=
  "<native_function , " ++ (if arity = -1 then toString arity else "...") ++ " args>"

/-- NativeFunctionValue.call: the arity check (skipped when variadic,
arity -1), then the host callable invoked directly - its return is
passed through unchanged, whatever it is. -/
def NativeFunctionValue.call (host : ℕ → List JSVal → JSVal) (fnId : ℕ) (arity : Int)
    (args : List JSVal) : JSVal :=
  if arity ≠ -1 ∧ (args.length : Int) ≠ arity then
    .val (.err ("error calling " ++ nativeToString arity ++ " (expected " ++ toString arity ++
      " arguments, received " ++ toString args.length ++ ")"))
  else host fnId args

/-- Claim C5: for Numbers a and b, div and fdiv return the Error value
with message "division by zero" exactly when b is 0, and for b ≠ 0
fdiv floors the exact quotient. -/
theorem number_div_fdiv_zero_and_floor (a b : JSNum) :
    (Value.div (.num a) (.val (.num b)) = .ok (.err "division by zero") ↔ b = some 0)
    ∧ (Value.fdiv (.num a) (.val (.num b)) = .ok (.err "division by zero") ↔ b = some 0)
    ∧ (∀ p q : ℚ, a = some p → b = some q → q ≠ 0 →
        Value.fdiv (.num a) (.val (.num b)) = .ok (.num (some (⌊p / q⌋ : ℚ)))) := by
  refine ⟨?_, ?_, ?_⟩
  · constructor
    · intro h
      by_contra hb
      simp only [Value.div, if_neg hb] at h
      simp at h
    · intro h
      subst h
      simp [Value.div]
  · constructor
    · intro h
      by_contra hb
      simp only [Value.fdiv, if_neg hb] at h
      simp at h
    · intro h
      subst h
      simp [Value.fdiv]
  · intro p q hp hq hq0
    subst hp; subst hq
    have hb : (some q : JSNum) ≠ some 0 := by
      intro h
      exact hq0 (by injection h)
    simp only [Value.fdiv, if_neg hb, jsDiv, jsFloor, if_neg hq0, Option.map_some']

/-- Witness for C5 at a = 3, b = 2: floor(3/2) = 1. -/
theorem number_div_fdiv_zero_and_floor_witness :
    Value.fdiv (.num (some 3)) (.val (.num (some 2))) = .ok (.num (some 1)) := by
  have h := (number_div_fdiv_zero_and_floor (some 3) (some 2)).2.2 3 2 rfl rfl (by norm_num)
  rw [h]
  norm_num

/-- Claim C10: mod with a zero Number divisor performs no zero check
and returns a Number value (NaN), while div and fdiv return the
"division by zero" Error value on the same operands. -/
theorem number_mod_zero_is_number (a : JSNum) :
    Value.mod (.num a) (.val (.num (some 0))) = .ok (.num none)
    ∧ (Value.mod (.num a) (.val (.num (some 0)))).map Value.getType = .ok 1
    ∧ Value.div (.num a) (.val (.num (some 0))) = .ok (.err "division by zero")
    ∧ Value.fdiv (.num a) (.val (.num (some 0))) = .ok (.err "division by zero") := by
  have hm : jsMod a (some 0) = none := by
    cases a <;> simp [jsMod]
  refine ⟨?_, ?_, by simp [Value.div], by simp [Value.fdiv]⟩
  · simp [Value.mod, hm]
  · simp [Value.mod, hm, Except.map, Value.getType]

/-- Claim C6 counterexample: indexing "abc" at -1 is out of bounds but
returns a String value wrapping the JavaScript undefined (variant tag
2), not an Error value - the guard only checks index >= length. -/
theorem string_dot_negative_counterexample :
    Value.dot (.str (some "abc")) (.val (.num (some (-1)))) = .ok (.str none)
    ∧ (Value.str none).getType = 2 := by
  constructor
  · have hg : jsGeLen (some (-1)) ("abc".length) = false := by decide
    simp only [Value.dot, hg, Bool.false_eq_true, if_false]
    have hi : jsStringIndex "abc" (some (-1)) = none := by decide
    rw [hi]
  · rfl

/-- Claim C6 amended: String.dot with a Number index returns the
out-of-bounds Error exactly when the index compares >= length; a
canonical in-range integer index yields the one-character String; any
negative index (and likewise fractional or NaN) yields a String value
wrapping undefined, not an Error. -/
theorem string_dot_amended (s : String) (b : JSNum) :
    (jsGeLen b s.length = true →
      Value.dot (.str (some s)) (.val (.num b)) =
        .ok (.err ("\"" ++ s ++ "\"." ++ jsNumToString b ++ " is out of bounds")))
    ∧ (jsGeLen b s.length = false →
      Value.dot (.str (some s)) (.val (.num b)) = .ok (.str (jsStringIndex s b)))
    ∧ (∀ n : ℕ, n < s.length → b = some (n : ℚ) →
      Value.dot (.str (some s)) (.val (.num b)) =
        .ok (.str (some (String.singleton (s.toList.getD n ' ')))))
    ∧ (∀ q : ℚ, b = some q → q < 0 →
      Value.dot (.str (some s)) (.val (.num b)) = .ok (.str none)) := by
  refine ⟨?_, ?_, ?_, ?_⟩
  · intro h
    simp only [Value.dot, h, if_true]
  · intro h
    simp only [Value.dot, h]
    simp
  · intro n hn hb
    subst hb
    have hg : jsGeLen (some (n : ℚ)) s.length = false := by
      simp [jsGeLen]
      exact_mod_cast hn
    simp only [Value.dot, hg]
    simp only [Bool.false_eq_true, if_false, jsStringIndex]
    rw [if_pos]
    · simp [Rat.num_natCast]
    · refine ⟨by simp, by simp, ?_⟩
      simp only [Rat.num_natCast]
      exact_mod_cast hn
  · intro q hb hq
    subst hb
    have hg : jsGeLen (some q) s.length = false := by
      simp only [jsGeLen, decide_eq_false_iff_not, not_le]
      calc q < 0 := hq
        _ ≤ (s.length : ℚ) := by positivity
    simp only [Value.dot, hg, Bool.false_eq_true, if_false, jsStringIndex]
    rw [if_neg]
    rintro ⟨-, h0, -⟩
    have : q.num < 0 := Rat.num_neg.mpr hq
    omega

/-- Witness for C6 amended at s = "abc", index 1: the character "b". -/
theorem string_dot_amended_witness :
    Value.dot (.str (some "abc")) (.val (.num (some 1))) = .ok (.str (some "b")) := by
  have h := (string_dot_amended "abc" (some 1)).2.2.1 1 (by decide) (by norm_num)
  simpa using h

/-- Token kinds of lexer.js (TokenType). -/
inductive TokType where
  | lparen | rparen | lbracket | rbracket | lbrace | rbrace
  | dollar | hash | comma | dot | semicolon
  | plus | plusEqual | minus | minusEqual | star | starEqual
  | slash | slashEqual | slashSlash | slashSlashEqual | percent | percentEqual
  | bang | bangEqual | equal | equalEqual | less | lessEqual | greater | greaterEqual | kwIs
  | ident | string | interpolation | number
  | kwOr | kwAnd | pipe | ampersand | caret
  | kwTrue | kwFalse | kwUndefined
  | kwFor | kwWhile | kwBreak | kwContinue
  | kwFun | kwReturn | kwIf | kwElse | colon | question
  | kwLet | kwConst | kwImport
  | error | eof
deriving DecidableEq, Repr

/-- A token lexeme is either a (decoded) string or a decoded number. -/
inductive Lexeme where
  | str (s : String)
  | num (n : JSNum)
deriving DecidableEq, Repr

/-- A token. Line/column tracking is omitted from the embedding: it
only feeds error-message text, which no claim inspects. -/
structure Token where
  type : TokType
  lex : Lexeme
deriving DecidableEq, Repr

/-- Lexer.#isHex with the hex digit value (isDigit, A-F, a-f). -/
def hexVal (c : Char) : Option ℕ :=
  if '0' ≤ c ∧ c ≤ '9' then some (c.toNat - 48)
  else if 'A' ≤ c ∧ c ≤ 'F' then some (c.toNat - 55)
  else if 'a' ≤ c ∧ c ≤ 'f' then some (c.toNat - 87)
  else none

/-- The digit loops of #readHexEscapeSequence / #readUnicodeEscapeSequence:
read exactly n hex digits, accumulating parseInt(seq, 16); a non-hex
character (or running off the end, where #advance yields undefined)
throws the "expected hex number" message. -/
def readHexDigits : ℕ → ℕ → List Char → Except String (ℕ × List Char)
  | 0, acc, cs => .ok (acc, cs)
  | _ + 1, _, [] => .error "expected hex number, got 'undefined'"
  | k + 1, acc, c :: cs =>
      match hexVal c with
      | none => .error ("expected hex number, got '" ++ String.singleton c ++ "'")
      | some v => readHexDigits k (acc * 16 + v) cs

/-- Lexer.#lexString, fuelled. Input is the character list just after
the opening quote; the accumulator is the decoded text so far. Mirrors
the source loop: a literal newline or end of input before the closing
quote is ERROR("unclosed string"); single-character escapes append the
escaped character; the \xHH case appends the *number* returned by
#readHexEscapeSequence (string-concatenated in its decimal form, since
the source forgets String.fromCharCode there); the \uHHHH case appends
String.fromCharCode of the parsed code unit; an unknown escape (or a
backslash at end of input, where #advance yields undefined) is the
"invalid escape sequence" error. -/
def lexStringGo : ℕ → List Char → String → Token × List Char
  | 0, cs, _ => (⟨.error, .str "fuel"⟩, cs)
  | _ + 1, [], _ => (⟨.error, .str "unclosed string"⟩, [])
  | f + 1, c :: cs, acc =>
      if c = '\n' then (⟨.error, .str "unclosed string"⟩, c :: cs)
      else if c = '"' then (⟨.string, .str acc⟩, cs)
      else if c = '\\' then
        match cs with
        | [] => (⟨.error, .str "invalid escape sequence: '\\undefined'"⟩, [])
        | e :: cs2 =>
            if e = 'f' then lexStringGo f cs2 (acc.push (Char.ofNat 12))
            else if e = 'n' then lexStringGo f cs2 (acc.push '\n')
            else if e = 'r' then lexStringGo f cs2 (acc.push (Char.ofNat 13))
            else if e = 't' then lexStringGo f cs2 (acc.push '\t')
            else if e = 'v' then lexStringGo f cs2 (acc.push (Char.ofNat 11))
            else if e = '0' then lexStringGo f cs2 (acc.push (Char.ofNat 0))
            else if e = '\\' then lexStringGo f cs2 (acc.push '\\')
            else if e = Char.ofNat 39 then lexStringGo f cs2 (acc.push (Char.ofNat 39))
            else if e = '"' then lexStringGo f cs2 (acc.push '"')
            else if e = 'x' then
              match readHexDigits 2 0 cs2 with
              | .error msg => (⟨.error, .str msg⟩, cs2)
              | .ok (n, cs3) => lexStringGo f cs3 (acc ++ toString n)
            else if e = 'u' then
              match readHexDigits 4 0 cs2 with
              | .error msg => (⟨.error, .str msg⟩, cs2)
              | .ok (n, cs3) => lexStringGo f cs3 (acc.push (Char.ofNat n))
            else (⟨.error, .str ("invalid escape sequence: '\\" ++ String.singleton e ++ "'")⟩, cs2)
      else lexStringGo f cs (acc.push c)

/-- Lexer.#lexString on the characters following the opening quote.
The fuel bound length+1 covers the loop, which consumes at least one
character per iteration. -/
def lexString (cs : List Char) : Token × List Char :=
  lexStringGo (cs.length + 1) cs ""

/-- Claim C7: the \xHH escape in a string literal does not decode to
the character it denotes: lexing "\x41" yields the STRING token "65"
(the parseInt result concatenated as a number), not "A", while the
analogous \u0041 correctly yields "A". -/
theorem lex_string_hex_escape_bug :
    (lexString ("\\x41\"").toList).1 = ⟨.string, .str "65"⟩
    ∧ (lexString ("\\x41\"").toList).1.lex ≠ .str "A"
    ∧ (lexString ("\\u0041\"").toList).1 = ⟨.string, .str "A"⟩
    ∧ (lexString ("abc").toList).1 = ⟨.error, .str "unclosed string"⟩ := by
  refine ⟨by decide, by decide, by decide, by decide⟩

/-- Opcode values (compiler.js). -/
def Opcode.GET_CONST : Int := 0
def Opcode.DEF_VARIABLE : Int := 1
def Opcode.GET_VARIABLE : Int := 2
def Opcode.SET_VARIABLE : Int := 3
def Opcode.TRUE : Int := 4
def Opcode.FALSE : Int := 5
def Opcode.POP : Int := 6
def Opcode.EQUAL : Int := 7
def Opcode.NOT_EQUAL : Int := 8
def Opcode.GREATER : Int := 9
def Opcode.GREATER_EQUAL : Int := 10
def Opcode.LESS : Int := 11
def Opcode.LESS_EQUAL : Int := 12
def Opcode.ADD : Int := 13
def Opcode.SUB : Int := 14
def Opcode.MUL : Int := 15
def Opcode.DIV : Int := 16
def Opcode.MOD : Int := 17
def Opcode.NEGATE : Int := 18
def Opcode.NOT : Int := 19
def Opcode.JUMP : Int := 20
def Opcode.JUMP_IF_FALSE : Int := 21
def Opcode.DUP : Int := 22
def Opcode.CALL : Int := 23
def Opcode.RETURN : Int := 24
def Opcode.DOT : Int := 25
def Opcode.IS : Int := 26
def Opcode.IMPORT : Int := 27

/-- A constant-pool entry of the compiler: a raw name string, or a
Value object together with its allocation identity (JavaScript ===
compares Value objects by reference, which the identity models). -/
inductive Const where
  | str (s : String)
  | val (id : ℕ) (v : Value)
deriving DecidableEq, Repr

/-- JavaScript === on pool entries: strings by value, Value objects by
allocation identity, mixed comparisons false. -/
def constEqJS : Const → Const → Bool
  | .str a, .str b => a == b
  | .val i _, .val j _ => i == j
  | _, _ => false

/-- Compiler state: the current token (#token), the remaining token
stream (the Lexer, which yields EOF forever once exhausted), the
constants and opcodes vectors, the next Value allocation identity, and
the ghost list of positions in opcodes where a JUMP / JUMP_IF_FALSE
offset operand was emitted. -/
structure CState where
  cur : Token
  toks : List Token
  constants : List Const
  opcodes : List Int
  nextId : ℕ
  jumps : List ℕ
deriving DecidableEq, Repr

def eofToken : Token := ⟨.eof, .str "EOF"⟩

/-- Compiler.#next: consume one token (EOF forever at end of input). -/
def cNext (s : CState) : CState :=
  match s.toks with
  | [] => { s with cur := eofToken }
  | t :: ts => { s with cur := t, toks := ts }

/-- Compiler.#peek. -/
def cPeek (s : CState) : Token := s.toks.headD eofToken

/-- Compiler.#emit. -/
def emit (s : CState) (ops : List Int) : CState := { s with opcodes := s.opcodes ++ ops }

/-- Emission of a jump instruction with its offset operand; the ghost
jumps field records the operand position. -/
def emitJump (s : CState) (op off : Int) : CState :=
  { s with
    opcodes := s.opcodes ++ [op, off],
    jumps := (s.opcodes.length + 1) :: s.jumps }

/-- A backpatch of the offset cell at position p. -/
def patch (s : CState) (p : ℕ) (v : Int) : CState := { s with opcodes := s.opcodes.set p v }

/-- Compiler.#getFP: opcodes.length - 1 (as a JavaScript number; -1 on
an empty opcode array). -/
def getFP (s : CState) : Int := (s.opcodes.length : Int) - 1

/-- Compiler.#defineConstant: the first index whose entry is === to the
argument, else append. -/
def defineConstant (s : CState) (c : Const) : CState × ℕ :=
  match s.constants.findIdx? (fun v => constEqJS v c) with
  | some i => (s, i)
  | none => ({ s with constants := s.constants ++ [c] }, s.constants.length)

/-- A `new ...Value(...)` expression: a fresh allocation identity. -/
def allocValue (s : CState) (v : Value) : CState × Const :=
  ({ s with nextId := s.nextId + 1 }, .val s.nextId v)

/-- A compiler failure: fuel exhaustion (an artifact of the embedding),
or a JavaScript throw from Compiler.#throw carrying the state mutated
so far (the top-level catch keeps those mutations). The line:column
prelude of the source message is omitted (no claim inspects it). -/
inductive CErr where
  | fuel
  | thrown (msg : String) (s : CState)

abbrev CRes := Except CErr CState

def cThrow (s : CState) (msg : String) : CRes := .error (.thrown msg s)

/-- Compiler.#expect. -/
def expect (s : CState) (tt : TokType) (msg : String) : CRes :=
  let s1 := cNext s
  if s1.cur.type = tt then .ok s1 else cThrow s1 msg

/-- Token.getLexeme read as a string (IDENTIFIER/STRING lexemes are
always strings; a numeric lexeme would coerce). -/
def Token.lexStr (t : Token) : String :=
  match t.lex with
  | .str s => s
  | .num n => jsNumToString n

/-- Token.getLexeme read as a number (NUMBER lexemes are always
numeric; a string lexeme is unreachable from #number). -/
def Token.lexNum (t : Token) : JSNum :=
  match t.lex with
  | .num n => n
  | .str _ => none

/-- Compiler.#identifier: GET_VARIABLE of the interned name. -/
def identifierAtom (s : CState) : CState :=
  let r := defineConstant s (.str s.cur.lexStr)
  emit r.1 [Opcode.GET_VARIABLE, (r.2 : Int)]

/-- Compiler.#string: a fresh StringValue interned by reference. -/
def stringAtom (s : CState) : CState :=
  let a := allocValue s (.str (some s.cur.lexStr))
  let r := defineConstant a.1 a.2
  emit r.1 [Opcode.GET_CONST, (r.2 : Int)]

/-- Compiler.#number: a fresh NumberValue interned by reference. -/
def numberAtom (s : CState) : CState :=
  let a := allocValue s (.num s.cur.lexNum)
  let r := defineConstant a.1 a.2
  emit r.1 [Opcode.GET_CONST, (r.2 : Int)]

/-- Compiler.#fun parameter loop: read identifiers while the next
token is one (fuelled by the remaining stream length). -/
def readParams : CState → ℕ → CState × List String
  | s, 0 => (s, [])
  | s, f + 1 =>
      if (cPeek s).type = .ident then
        let s1 := cNext s
        let (s2, rest) := readParams s1 f
        (s2, s1.cur.lexStr :: rest)
      else (s, [])

mutual

/-- Compiler.step: advance and parse one s-expression. -/
def cStep : ℕ → CState → CRes
  | 0, _ => .error .fuel
  | f + 1, s => cSExpression f (cNext s)

/-- Compiler.#sExpression. -/
def cSExpression : ℕ → CState → CRes
  | 0, _ => .error .fuel
  | f + 1, s =>
      match s.cur.type with
      | .lparen => cExpression f (cNext s)
      | .ident => .ok (identifierAtom s)
      | .string => .ok (stringAtom s)
      | .number => .ok (numberAtom s)
      | .kwTrue => .ok (emit s [Opcode.TRUE])
      | .kwFalse => .ok (emit s [Opcode.FALSE])
      | _ => cThrow s "unexpected token"

/-- Compiler.#expression: dispatch to the handler for the current
token, then require the closing parenthesis. -/
def cExpression : ℕ → CState → CRes
  | 0, _ => .error .fuel
  | f + 1, s => do
      let s1 ← cHandle f s
      expect s1 .rparen "expected closing parenthesis ')'"

/-- The handler table of Compiler.#initHandlers. A token kind with no
handler throws (handler() on undefined). -/
def cHandle : ℕ → CState → CRes
  | 0, _ => .error .fuel
  | f + 1, s =>
      match s.cur.type with
      | .lparen => cExpression f (cNext s)
      | .rparen => cThrow s "unbalanced parenthesis (extra ')')"
      | .plus => cBinary f Opcode.ADD s
      | .plusEqual => cBinaryAssign f Opcode.ADD s
      | .minus => do
          let s1 ← cStep f s
          if (cPeek s1).type = .rparen then .ok (emit s1 [Opcode.NEGATE])
          else do
            let s2 ← cStep f s1
            .ok (emit s2 [Opcode.SUB])
      | .minusEqual => cBinaryAssign f Opcode.SUB s
      | .star => cBinary f Opcode.MUL s
      | .starEqual => cBinaryAssign f Opcode.MUL s
      | .slash => cBinary f Opcode.DIV s
      | .slashEqual => cBinaryAssign f Opcode.DIV s
      | .percent => cBinary f Opcode.MOD s
      | .percentEqual => cBinaryAssign f Opcode.MOD s
      | .dot => cBinary f Opcode.DOT s
      | .equal => do
          let s1 ← expect s .ident "expected identifier"
          let name := s1.cur.lexStr
          let s2 ← cStep f s1
          let r := defineConstant s2 (.str name)
          .ok (emit r.1 [Opcode.SET_VARIABLE, (r.2 : Int)])
      | .equalEqual => cBinary f Opcode.EQUAL s
      | .bang => do
          let s1 ← cStep f s
          .ok (emit s1 [Opcode.NOT])
      | .bangEqual => cBinary f Opcode.NOT_EQUAL s
      | .less => cBinary f Opcode.LESS s
      | .lessEqual => cBinary f Opcode.LESS_EQUAL s
      | .greater => cBinary f Opcode.GREATER s
      | .greaterEqual => cBinary f Opcode.GREATER_EQUAL s
      | .kwIs => cBinary f Opcode.IS s
      | .ident => do
          let r0 := defineConstant s (.str s.cur.lexStr)
          let r ← cCallArgs f r0.1 0
          .ok (emit r.1 [Opcode.CALL, (r.2 : Int), (r0.2 : Int)])
      | .kwWhile => cWhile f s
      | .kwFun => cFun f s
      | .kwIf => cIf f s
      | .kwLet => do
          let s1 ← expect s .ident "expected identifier"
          let name := s1.cur.lexStr
          let s2 ← cStep f s1
          let r := defineConstant s2 (.str name)
          .ok (emit r.1 [Opcode.DEF_VARIABLE, (r.2 : Int)])
      | .kwImport => do
          let s1 ← expect s .ident "expected module"
          let r := defineConstant s1 (.str s1.cur.lexStr)
          .ok (emit r.1 [Opcode.IMPORT, (r.2 : Int)])
      | .error => cThrow s s.cur.lexStr
      | .eof => cThrow s "unexpected EOF"
      | _ => cThrow s "TypeError: handler is not a function"

/-- Compiler.#binary: two sub-expressions, then the opcode. -/
def cBinary : ℕ → Int → CState → CRes
  | 0, _, _ => .error .fuel
  | f + 1, op, s => do
      let s1 ← cStep f s
      let s2 ← cStep f s1
      .ok (emit s2 [op])

/-- Compiler.#binaryAssign: GET_VARIABLE var, sub-expression, then the
opcode and SET_VARIABLE var. -/
def cBinaryAssign : ℕ → Int → CState → CRes
  | 0, _, _ => .error .fuel
  | f + 1, op, s => do
      let s1 ← expect s .ident "expected identifier"
      let r := defineConstant s1 (.str s1.cur.lexStr)
      let s3 := emit r.1 [Opcode.GET_VARIABLE, (r.2 : Int)]
      let s4 ← cStep f s3
      .ok (emit s4 [op, Opcode.SET_VARIABLE, (r.2 : Int)])

/-- Compiler.#block: s-expressions until the closing parenthesis. -/
def cBlock : ℕ → CState → CRes
  | 0, _ => .error .fuel
  | f + 1, s =>
      let s1 := cNext s
      if s1.cur.type = .rparen then .ok s1
      else do
        let s2 ← cSExpression f s1
        cBlock f s2

/-- The argument loop of the IDENTIFIER (call) handler. -/
def cCallArgs : ℕ → CState → ℕ → Except CErr (CState × ℕ)
  | 0, _, _ => .error .fuel
  | f + 1, s, n =>
      if (cPeek s).type = .rparen then .ok (s, n)
      else do
        let s1 ← cStep f s
        cCallArgs f s1 (n + 1)

/-- The IF handler: condition, JUMP_IF_FALSE placeholder, true block,
patch to fpElse - p + 2; with an else block, a JUMP placeholder
patched to fpEnd - fpElse - 2. -/
def cIf : ℕ → CState → CRes
  | 0, _ => .error .fuel
  | f + 1, s => do
      let s1 ← cStep f s
      let p := s1.opcodes.length + 1
      let s2 := emitJump s1 Opcode.JUMP_IF_FALSE 0
      let s3 ← cBlock f (cNext s2)
      let fpElse := getFP s3
      let s4 := patch s3 p (fpElse - (p : Int) + 2)
      if (cPeek s4).type = .lparen then do
        let p2 := s4.opcodes.length + 1
        let s5 := emitJump s4 Opcode.JUMP 0
        let s6 ← cBlock f (cNext s5)
        let fpEnd := getFP s6
        .ok (patch s6 p2 (fpEnd - fpElse - 2))
      else .ok s4

/-- The WHILE handler: condition, JUMP_IF_FALSE placeholder, body,
patch to fpCurrent - p + 2, then JUMP back by fpCondition - fpCurrent - 2. -/
def cWhile : ℕ → CState → CRes
  | 0, _ => .error .fuel
  | f + 1, s => do
      let fpCondition := getFP s
      let s1 ← cStep f s
      let p := s1.opcodes.length + 1
      let s2 := emitJump s1 Opcode.JUMP_IF_FALSE 0
      let s3 ← cBlock f (cNext s2)
      let fpCurrent := getFP s3
      let s4 := patch s3 p (fpCurrent - (p : Int) + 2)
      .ok (emitJump s4 Opcode.JUMP (fpCondition - fpCurrent - 2))

/-- The FUN handler: name, parameter list (reversed so call-time pops
bind in source order), body compiled in place then sliced out of the
main array, RETURN appended to the slice, the FunctionValue interned,
and GET_CONST fn / DEF_VARIABLE name emitted. Ghost jump positions
inside the sliced region are dropped from the main-array jump list. -/
def cFun : ℕ → CState → CRes
  | 0, _ => .error .fuel
  | f + 1, s => do
      let s1 ← expect s .ident "expected identifier"
      let name := s1.cur.lexStr
      let s2 ← expect s1 .lparen "undefined"
      let pr := readParams s2 s2.toks.length
      let args := pr.2.reverse
      let s4 ← expect pr.1 .rparen "expected closing parenthesis ')'"
      let fpn := s4.opcodes.length
      let s5 ← cBlock f (cNext s4)
      let code := (s5.opcodes.drop fpn) ++ [Opcode.RETURN]
      let s6 : CState :=
        { s5 with
          opcodes := s5.opcodes.take fpn,
          jumps := s5.jumps.filter (fun p => decide (p < fpn)) }
      let a := allocValue s6 (.fn name args code)
      let r1 := defineConstant a.1 a.2
      let r2 := defineConstant r1.1 (.str name)
      .ok (emit r2.1 [Opcode.GET_CONST, (r1.2 : Int), Opcode.DEF_VARIABLE, (r2.2 : Int)])

end

/-- Compiler.compile main loop: consume a token; an ERROR token or a
thrown compile error stops compilation (accepted = false, keeping the
state mutated so far); EOF on peek ends it (accepted = true); otherwise
parse one s-expression and continue. -/
def compileLoop : ℕ → CState → Except Unit (CState × Bool)
  | 0, _ => .error ()
  | f + 1, s =>
      let s1 := cNext s
      if s1.cur.type = .error then .ok (s1, false)
      else if (cPeek s1).type = .eof then .ok (s1, true)
      else
        match cSExpression f s1 with
        | .ok s2 => compileLoop f s2
        | .error .fuel => .error ()
        | .error (.thrown _ sE) => .ok (sE, false)

def initCState (toks : List Token) : CState :=
  { cur := eofToken, toks := toks, constants := [], opcodes := [], nextId := 0, jumps := [] }

/-- Compiler.compile: the loop, then the terminal RETURN (emitted on
every exit path). `none` only on fuel exhaustion. -/
def compile (fuel : ℕ) (toks : List Token) : Option (CState × Bool) :=
  match compileLoop fuel (initCState toks) with
  | .ok (s, accepted) => some (emit s [Opcode.RETURN], accepted)
  | .error () => none

def tkLP : Token := ⟨.lparen, .str "("⟩

def tkRP : Token := ⟨.rparen, .str ")"⟩

/-- The token stream of the program `(while true ())`. -/
def demoWhileToks : List Token :=
  [tkLP, ⟨.kwWhile, .str "while"⟩, ⟨.kwTrue, .str "true"⟩, tkLP, tkRP, tkRP]

/-- The token stream of the program `(+ 1 1)`. -/
def demoPlusToks : List Token :=
  [tkLP, ⟨.plus, .str "+"⟩, ⟨.number, .num (some 1)⟩, ⟨.number, .num (some 1)⟩, tkRP]

/-- Claim C1 counterexample: the accepted program `(while true ())`
compiles to [TRUE, JUMP_IF_FALSE, 2, JUMP, -5, RETURN] with jump
offset operands at positions 2 and 4; at p = 4 the stored back-jump
offset d = -5 gives p + d = -1 < 0, violating 0 ≤ p + d. -/
theorem while_backjump_counterexample :
    (compile 32 demoWhileToks).map (fun r => (r.1.opcodes, r.1.jumps, r.2))
      = some ([4, 21, 2, 20, -5, 24], [4, 2], true)
    ∧ ¬ (0 : Int) ≤ (4 : Int) + (-5 : Int) := by
  exact ⟨by decide, by decide⟩

/-- Claim C8 counterexample: the accepted program `(+ 1 1)` contains
the primitive constant 1 twice, yet compiles to
[GET_CONST, 0, GET_CONST, 1, ADD, RETURN] with two distinct pool
entries both holding the NumberValue 1 - the occurrences do not share
a constant-pool index. -/
theorem intern_number_counterexample :
    (compile 32 demoPlusToks).map (fun r => (r.1.opcodes, r.1.constants, r.2))
      = some ([0, 0, 0, 1, 13, 24],
              [Const.val 0 (Value.num (some 1)), Const.val 1 (Value.num (some 1))], true) := by
  decide

/-- Pool entries that are Value objects carry allocation identities
below the allocator counter; this is what makes a fresh allocation
unmatched by the reference-equality search. -/
def PoolWF (s : CState) : Prop :=
  ∀ i w, Const.val i w ∈ s.constants → i < s.nextId

/-- Claim C8 amended, part 2: a Number or String literal constant is
never interned. The fresh Value allocated for it has allocation
identity equal to the current counter, every pool entry has a smaller
one, so the === search fails and a new index (the pool length) is
appended - for any well-formed pool, in particular any pool the
compiler builds. -/
theorem define_constant_fresh_value_appends (s : CState) (v : Value) (h : PoolWF s) :
    (defineConstant (allocValue s v).1 (allocValue s v).2).2 = s.constants.length
    ∧ (defineConstant (allocValue s v).1 (allocValue s v).2).1.constants
      = s.constants ++ [.val s.nextId v] := by
  have hnone : s.constants.findIdx? (fun c => constEqJS c (.val s.nextId v)) = none := by
    rw [List.findIdx?_eq_none_iff]
    intro c hc
    match c with
    | .str _ => rfl
    | .val i w =>
        have hi := h i w hc
        simp only [constEqJS, beq_eq_false_iff_ne, ne_eq]
        omega
  unfold allocValue defineConstant
  simp only [hnone]
  exact ⟨trivial, trivial⟩

/-- The offset cell stored at position p of the opcode array. -/
def cellAt (s : CState) (p : ℕ) : Int := s.opcodes.getD p 0

/-- The jump invariant carried through compilation: every recorded
jump operand position is inside the opcode array, and its stored
offset d satisfies -1 ≤ p + d ≤ len + 1 (the transient upper slack of
one is absorbed by the RETURN that terminates every compile). -/
def GInv (s : CState) : Prop :=
  ∀ p ∈ s.jumps,
    p < s.opcodes.length ∧
    (-1 : Int) ≤ (p : Int) + cellAt s p ∧
    (p : Int) + cellAt s p ≤ (s.opcodes.length : Int) + 1

/-- What one compiler routine does to the code, seen from its entry
state: the array only grows, the prefix present at entry is preserved
(patches only touch cells the routine emitted itself), and the new
jump positions all lie at or after the entry length. -/
def Ctr (s t : CState) : Prop :=
  s.opcodes.length ≤ t.opcodes.length ∧
  t.opcodes.take s.opcodes.length = s.opcodes ∧
  ∃ new, t.jumps = new ++ s.jumps ∧ ∀ p ∈ new, s.opcodes.length ≤ p

/-- The combined routine contract, conditional on the invariant at
entry. -/
def COk (s t : CState) : Prop := GInv s → Ctr s t ∧ GInv t

theorem ctr_refl (s : CState) : Ctr s s :=
  ⟨le_refl _, List.take_length _, [], rfl, by simp⟩

theorem ctr_trans {s t u : CState} (h1 : Ctr s t) (h2 : Ctr t u) : Ctr s u := by
  obtain ⟨l1, tk1, n1, hj1, hb1⟩ := h1
  obtain ⟨l2, tk2, n2, hj2, hb2⟩ := h2
  refine ⟨le_trans l1 l2, ?_, n2 ++ n1, ?_, ?_⟩
  · have : u.opcodes.take s.opcodes.length = (u.opcodes.take t.opcodes.length).take s.opcodes.length := by
      rw [List.take_take, min_eq_left l1]
    rw [this, tk2, tk1]
  · rw [hj2, hj1, List.append_assoc]
  · intro p hp
    rcases List.mem_append.mp hp with h | h
    · exact le_trans l1 (hb2 p h)
    · exact hb1 p h

theorem cok_trans {s t u : CState} (h1 : COk s t) (h2 : COk t u) : COk s u := by
  intro g
  obtain ⟨c1, g1⟩ := h1 g
  obtain ⟨c2, g2⟩ := h2 g1
  exact ⟨ctr_trans c1 c2, g2⟩

/-- A state change that leaves opcodes and jumps alone (cNext, expect,
defineConstant, allocValue, readParams) satisfies the contract. -/
theorem cok_of_same {s t : CState} (ho : t.opcodes = s.opcodes) (hj : t.jumps = s.jumps) :
    COk s t := by
  intro g
  refine ⟨⟨by rw [ho], by rw [ho, List.take_length], [], by simp [hj], by simp⟩, ?_⟩
  intro p hp
  rw [hj] at hp
  obtain ⟨h1, h2, h3⟩ := g p hp
  refine ⟨by rw [ho]; exact h1, ?_, ?_⟩
  · simpa [cellAt, ho] using h2
  · simpa [cellAt, ho] using h3

theorem cellAt_of_prefix {s t : CState} (h : t.opcodes.take s.opcodes.length = s.opcodes)
    {p : ℕ} (hp : p < s.opcodes.length) : cellAt t p = cellAt s p := by
  unfold cellAt
  have h2 := List.getElem?_take_of_lt (l := t.opcodes) (n := s.opcodes.length) (m := p) hp
  rw [h] at h2
  simp only [List.getD, List.get?_eq_getElem?, h2]

theorem ctr_emit (s : CState) (ops : List Int) : Ctr s (emit s ops) := by
  refine ⟨by simp [emit], by simp [emit], [], by simp [emit], by simp⟩

theorem ginv_of_grow {s t : CState} (hlen : s.opcodes.length ≤ t.opcodes.length)
    (hpre : t.opcodes.take s.opcodes.length = s.opcodes)
    (hj : t.jumps = s.jumps) (g : GInv s) : GInv t := by
  intro p hp
  rw [hj] at hp
  obtain ⟨h1, h2, h3⟩ := g p hp
  have hc := cellAt_of_prefix hpre h1
  refine ⟨lt_of_lt_of_le h1 hlen, by rw [hc]; exact h2, ?_⟩
  rw [hc]
  have : (s.opcodes.length : Int) + 1 ≤ (t.opcodes.length : Int) + 1 := by
    exact_mod_cast Nat.add_le_add_right hlen 1
  exact le_trans h3 this

theorem cok_emit (s : CState) (ops : List Int) : COk s (emit s ops) := by
  intro g
  refine ⟨ctr_emit s ops, ?_⟩
  exact ginv_of_grow (by simp [emit]) (by simp [emit]) (by simp [emit]) g

theorem emitJump_len (s : CState) (op off : Int) :
    (emitJump s op off).opcodes.length = s.opcodes.length + 2 := by
  simp [emitJump]

theorem cellAt_emitJump (s : CState) (op off : Int) :
    cellAt (emitJump s op off) (s.opcodes.length + 1) = off := by
  unfold cellAt emitJump
  simp only [List.getD, List.get?_eq_getElem?]
  rw [List.getElem?_append_right (by omega)]
  simp

theorem ctr_emitJump (s : CState) (op off : Int) : Ctr s (emitJump s op off) := by
  refine ⟨by simp [emitJump], by simp [emitJump], [s.opcodes.length + 1], by simp [emitJump], ?_⟩
  simp

theorem ginv_emitJump {s : CState} (g : GInv s) (op off : Int)
    (h1 : (-1 : Int) ≤ (s.opcodes.length + 1 : Int) + off)
    (h2 : (s.opcodes.length + 1 : Int) + off ≤ (s.opcodes.length + 2 : Int) + 1) :
    GInv (emitJump s op off) := by
  intro p hp
  simp only [emitJump] at hp
  rcases List.mem_cons.mp hp with h | h
  · subst h
    refine ⟨by rw [emitJump_len]; omega, ?_, ?_⟩
    · rw [cellAt_emitJump]
      exact_mod_cast h1
    · rw [cellAt_emitJump, emitJump_len]
      push_cast
      push_cast at h2
      linarith
  · obtain ⟨hl, hb1, hb2⟩ := g p h
    have hpre : (emitJump s op off).opcodes.take s.opcodes.length = s.opcodes := by
      simp [emitJump]
    have hc := cellAt_of_prefix hpre hl
    refine ⟨by rw [emitJump_len]; omega, by rw [hc]; exact hb1, ?_⟩
    rw [hc, emitJump_len]
    push_cast
    push_cast at hb2
    linarith

theorem cok_emitJump_placeholder (s : CState) (op : Int) : COk s (emitJump s op 0) := by
  intro g
  exact ⟨ctr_emitJump s op 0, ginv_emitJump g op 0 (by omega) (by omega)⟩

theorem patch_len (s : CState) (p : ℕ) (v : Int) :
    (patch s p v).opcodes.length = s.opcodes.length := by
  simp [patch]

theorem cellAt_patch_self {s : CState} {p : ℕ} (hp : p < s.opcodes.length) (v : Int) :
    cellAt (patch s p v) p = v := by
  unfold cellAt patch
  simp only [List.getD, List.get?_eq_getElem?]
  rw [List.getElem?_set_self hp]
  rfl

theorem cellAt_patch_ne {s : CState} {p q : ℕ} (h : p ≠ q) (v : Int) :
    cellAt (patch s p v) q = cellAt s q := by
  unfold cellAt patch
  simp only [List.getD, List.get?_eq_getElem?]
  rw [List.getElem?_set_ne h]

theorem ginv_patch {s : CState} (g : GInv s) {p : ℕ} (v : Int)
    (hp : p < s.opcodes.length)
    (h1 : (-1 : Int) ≤ (p : Int) + v)
    (h2 : (p : Int) + v ≤ (s.opcodes.length : Int) + 1) :
    GInv (patch s p v) := by
  intro q hq
  simp only [patch] at hq
  rw [patch_len]
  by_cases hpq : p = q
  · subst hpq
    rw [cellAt_patch_self hp]
    exact ⟨hp, h1, h2⟩
  · rw [cellAt_patch_ne hpq]
    exact g q hq

theorem ctr_patch_of {s0 s : CState} (h : Ctr s0 s) {p : ℕ} (hp : s0.opcodes.length ≤ p)
    (v : Int) : Ctr s0 (patch s p v) := by
  obtain ⟨hl, hpre, new, hj, hb⟩ := h
  refine ⟨by rw [patch_len]; exact hl, ?_, new, by simp [patch]; exact hj, hb⟩
  have : (patch s p v).opcodes.take s0.opcodes.length = s.opcodes.take s0.opcodes.length := by
    apply List.ext_getElem?
    intro i
    by_cases hi : i < s0.opcodes.length
    · rw [List.getElem?_take_of_lt hi, List.getElem?_take_of_lt hi]
      simp only [patch]
      rw [List.getElem?_set_ne (by omega)]
    · rw [List.getElem?_take, List.getElem?_take]
      simp [if_neg hi]
  rw [this, hpre]

theorem cNext_opcodes (s : CState) : (cNext s).opcodes = s.opcodes := by
  unfold cNext
  cases s.toks <;> rfl

theorem cNext_jumps (s : CState) : (cNext s).jumps = s.jumps := by
  unfold cNext
  cases s.toks <;> rfl

theorem cok_cNext (s : CState) : COk s (cNext s) :=
  cok_of_same (cNext_opcodes s) (cNext_jumps s)

theorem expect_ok {s r : CState} {tt : TokType} {msg : String}
    (h : expect s tt msg = .ok r) : r = cNext s := by
  unfold expect at h
  simp only [] at h
  split at h
  · exact ((Except.ok.injEq _ _).mp h).symm
  · simp [cThrow] at h

theorem cThrow_ne_ok {s r : CState} {msg : String} : cThrow s msg ≠ .ok r := by
  simp [cThrow]

theorem defineConstant_opcodes (s : CState) (c : Const) :
    (defineConstant s c).1.opcodes = s.opcodes := by
  unfold defineConstant
  split <;> rfl

theorem defineConstant_jumps (s : CState) (c : Const) :
    (defineConstant s c).1.jumps = s.jumps := by
  unfold defineConstant
  split <;> rfl

theorem allocValue_opcodes (s : CState) (v : Value) : (allocValue s v).1.opcodes = s.opcodes := rfl

theorem allocValue_jumps (s : CState) (v : Value) : (allocValue s v).1.jumps = s.jumps := rfl

theorem readParams_opcodes (s : CState) (f : ℕ) : (readParams s f).1.opcodes = s.opcodes := by
  induction f generalizing s with
  | zero => rfl
  | succ f ih =>
      unfold readParams
      split
      · rw [ih (cNext s), cNext_opcodes]
      · rfl

theorem readParams_jumps (s : CState) (f : ℕ) : (readParams s f).1.jumps = s.jumps := by
  induction f generalizing s with
  | zero => rfl
  | succ f ih =>
      unfold readParams
      split
      · rw [ih (cNext s), cNext_jumps]
      · rfl

theorem cok_identifierAtom (s : CState) : COk s (identifierAtom s) := by
  unfold identifierAtom
  exact cok_trans (cok_of_same (defineConstant_opcodes _ _) (defineConstant_jumps _ _))
    (cok_emit _ _)

theorem cok_stringAtom (s : CState) : COk s (stringAtom s) := by
  unfold stringAtom
  refine cok_trans (cok_of_same ?_ ?_) (cok_emit _ _)
  · rw [defineConstant_opcodes, allocValue_opcodes]
  · rw [defineConstant_jumps, allocValue_jumps]

theorem cok_numberAtom (s : CState) : COk s (numberAtom s) := by
  unfold numberAtom
  refine cok_trans (cok_of_same ?_ ?_) (cok_emit _ _)
  · rw [defineConstant_opcodes, allocValue_opcodes]
  · rw [defineConstant_jumps, allocValue_jumps]

theorem except_bind_ok {ε α β : Type} {m : Except ε α} {k : α → Except ε β} {r : β} :
    Except.bind m k = .ok r ↔ ∃ a, m = .ok a ∧ k a = .ok r := by
  cases m <;> simp [Except.bind]

set_option maxHeartbeats 1000000

theorem compiler_contract (f : ℕ) :
    (∀ s r, cStep f s = .ok r → COk s r) ∧
    (∀ s r, cSExpression f s = .ok r → COk s r) ∧
    (∀ s r, cExpression f s = .ok r → COk s r) ∧
    (∀ s r, cHandle f s = .ok r → COk s r) ∧
    (∀ op s r, cBinary f op s = .ok r → COk s r) ∧
    (∀ op s r, cBinaryAssign f op s = .ok r → COk s r) ∧
    (∀ s r, cBlock f s = .ok r → COk s r) ∧
    (∀ s n r, cCallArgs f s n = .ok r → COk s r.1) ∧
    (∀ s r, cIf f s = .ok r → COk s r) ∧
    (∀ s r, cWhile f s = .ok r → COk s r) ∧
    (∀ s r, cFun f s = .ok r → COk s r) := by
  induction f with
  | zero =>
      exact ⟨fun s r h => absurd h (by simp [cStep]),
             fun s r h => absurd h (by simp [cSExpression]),
             fun s r h => absurd h (by simp [cExpression]),
             fun s r h => absurd h (by simp [cHandle]),
             fun op s r h => absurd h (by simp [cBinary]),
             fun op s r h => absurd h (by simp [cBinaryAssign]),
             fun s r h => absurd h (by simp [cBlock]),
             fun s n r h => absurd h (by simp [cCallArgs]),
             fun s r h => absurd h (by simp [cIf]),
             fun s r h => absurd h (by simp [cWhile]),
             fun s r h => absurd h (by simp [cFun])⟩
  | succ f ih =>
      obtain ⟨ihStep, ihSexp, ihExpr, ihHandle, ihBin, ihBinA, ihBlock, ihArgs, ihIf, ihWhile, ihFun⟩ := ih
      have hStep : ∀ s r, cStep (f+1) s = .ok r → COk s r := by
        intro s r h
        simp only [cStep] at h
        exact cok_trans (cok_cNext s) (ihSexp _ _ h)
      have hSexp : ∀ s r, cSExpression (f+1) s = .ok r → COk s r := by
        intro s r h
        simp only [cSExpression] at h
        split at h
        · exact cok_trans (cok_cNext s) (ihExpr _ _ h)
        · injection h with h; subst h; exact cok_identifierAtom s
        · injection h with h; subst h; exact cok_stringAtom s
        · injection h with h; subst h; exact cok_numberAtom s
        · injection h with h; subst h; exact cok_emit s _
        · injection h with h; subst h; exact cok_emit s _
        · exact absurd h cThrow_ne_ok
      have hBin : ∀ op s r, cBinary (f+1) op s = .ok r → COk s r := by
        intro op s r h
        simp only [cBinary, bind, Except.bind] at h
        cases h1 : cStep f s with
        | error e => rw [h1] at h; exact absurd h (by simp)
        | ok s1 =>
          simp only [h1] at h
          cases h2 : cStep f s1 with
          | error e => rw [h2] at h; exact absurd h (by simp)
          | ok s2 =>
            simp only [h2, Except.ok.injEq] at h
            subst h
            exact cok_trans (ihStep _ _ h1) (cok_trans (ihStep _ _ h2) (cok_emit _ _))
      have hExpr : ∀ s r, cExpression (f+1) s = .ok r → COk s r := by
        intro s r h
        simp only [cExpression, bind, Except.bind] at h
        cases h1 : cHandle f s with
        | error e => rw [h1] at h; exact absurd h (by simp)
        | ok s1 =>
          simp only [h1] at h
          have h2 := expect_ok h
          subst h2
          exact cok_trans (ihHandle _ _ h1) (cok_cNext s1)
      have hBlock : ∀ s r, cBlock (f+1) s = .ok r → COk s r := by
        intro s r h
        simp only [cBlock, bind, Except.bind] at h
        split at h
        · injection h with h; subst h; exact cok_cNext s
        · cases h1 : cSExpression f (cNext s) with
          | error e => rw [h1] at h; exact absurd h (by simp)
          | ok s1 =>
            simp only [h1] at h
            exact cok_trans (cok_cNext s) (cok_trans (ihSexp _ _ h1) (ihBlock _ _ h))
      have hArgs : ∀ s n r, cCallArgs (f+1) s n = .ok r → COk s r.1 := by
        intro s n r h
        simp only [cCallArgs, bind, Except.bind] at h
        split at h
        · injection h with h; subst h; exact fun g => ⟨ctr_refl s, g⟩
        · cases h1 : cStep f s with
          | error e => rw [h1] at h; exact absurd h (by simp)
          | ok s1 =>
            simp only [h1] at h
            exact cok_trans (ihStep _ _ h1) (ihArgs _ _ _ h)
      have hBinA : ∀ op s r, cBinaryAssign (f+1) op s = .ok r → COk s r := by
        intro op s r h
        simp only [cBinaryAssign, bind, Except.bind] at h
        cases h1 : expect s .ident "expected identifier" with
        | error e => rw [h1] at h; exact absurd h (by simp)
        | ok s1 =>
          simp only [h1] at h
          have hs1 := expect_ok h1
          subst hs1
          cases h2 : cStep f (emit (defineConstant (cNext s) (.str (cNext s).cur.lexStr)).1
              [Opcode.GET_VARIABLE, ((defineConstant (cNext s) (.str (cNext s).cur.lexStr)).2 : Int)]) with
          | error e => rw [h2] at h; exact absurd h (by simp)
          | ok s4 =>
            simp only [h2, Except.ok.injEq] at h
            subst h
            have hA : COk (cNext s) (defineConstant (cNext s) (.str (cNext s).cur.lexStr)).1 :=
              cok_of_same (defineConstant_opcodes _ _) (defineConstant_jumps _ _)
            refine cok_trans (cok_cNext s) (cok_trans hA ?_)
            exact cok_trans (cok_emit _ _) (cok_trans (ihStep _ _ h2) (cok_emit _ _))
      have hIf : ∀ s r, cIf (f+1) s = .ok r → COk s r := by
        intro s r h
        simp only [cIf, bind, except_bind_ok] at h
        obtain ⟨s1, h1, s3, h3, h⟩ := h
        split at h
        · simp only [except_bind_ok] at h
          obtain ⟨s6, h6, h⟩ := h
          simp only [Except.ok.injEq] at h
          subst h
          intro g
          obtain ⟨ctr1, g1⟩ := ihStep _ _ h1 g
          obtain ⟨ctr2, g2⟩ := cok_emitJump_placeholder s1 Opcode.JUMP_IF_FALSE g1
          obtain ⟨ctr3, g3⟩ :=
            cok_trans (cok_cNext (emitJump s1 Opcode.JUMP_IF_FALSE 0)) (ihBlock _ _ h3) g2
          have hl2 : (emitJump s1 Opcode.JUMP_IF_FALSE 0).opcodes.length
              = s1.opcodes.length + 2 := emitJump_len s1 _ 0
          have hl23 := ctr3.1
          rw [hl2] at hl23
          have hp3 : s1.opcodes.length + 1 < s3.opcodes.length := by omega
          have hn01 : s.opcodes.length ≤ s1.opcodes.length := ctr1.1
          have g4 := ginv_patch g3 (getFP s3 - ((s1.opcodes.length + 1 : ℕ) : Int) + 2) hp3
            (by unfold getFP; push_cast; omega) (by unfold getFP; push_cast; omega)
          obtain ⟨ctr5, g5⟩ := cok_emitJump_placeholder _ Opcode.JUMP g4
          obtain ⟨ctr6, g6⟩ := cok_trans (cok_cNext _) (ihBlock _ _ h6) g5
          have hl5 : (emitJump (patch s3 (s1.opcodes.length + 1)
                (getFP s3 - ((s1.opcodes.length + 1 : ℕ) : Int) + 2)) Opcode.JUMP 0).opcodes.length
              = s3.opcodes.length + 2 := by
            rw [emitJump_len, patch_len]
          have hl56 := ctr6.1
          rw [hl5] at hl56
          have hl4 : (patch s3 (s1.opcodes.length + 1)
                (getFP s3 - ((s1.opcodes.length + 1 : ℕ) : Int) + 2)).opcodes.length
              = s3.opcodes.length := patch_len _ _ _
          constructor
          · have ctrA : Ctr s s3 := ctr_trans ctr1 (ctr_trans ctr2 ctr3)
            have ctrB := ctr_patch_of ctrA (p := s1.opcodes.length + 1) (by omega)
              (getFP s3 - ((s1.opcodes.length + 1 : ℕ) : Int) + 2)
            have ctrC : Ctr s s6 := ctr_trans ctrB (ctr_trans (ctr_emitJump _ _ _) ctr6)
            refine ctr_patch_of ctrC ?_ _
            rw [hl4]
            omega
          · apply ginv_patch g6
            · rw [hl4]
              omega
            · rw [hl4]
              unfold getFP
              push_cast
              omega
            · rw [hl4]
              unfold getFP
              push_cast
              omega
        · simp only [Except.ok.injEq] at h
          subst h
          intro g
          obtain ⟨ctr1, g1⟩ := ihStep _ _ h1 g
          obtain ⟨ctr2, g2⟩ := cok_emitJump_placeholder s1 Opcode.JUMP_IF_FALSE g1
          obtain ⟨ctr3, g3⟩ :=
            cok_trans (cok_cNext (emitJump s1 Opcode.JUMP_IF_FALSE 0)) (ihBlock _ _ h3) g2
          have hl2 : (emitJump s1 Opcode.JUMP_IF_FALSE 0).opcodes.length
              = s1.opcodes.length + 2 := emitJump_len s1 _ 0
          have hl23 := ctr3.1
          rw [hl2] at hl23
          have hp3 : s1.opcodes.length + 1 < s3.opcodes.length := by omega
          have hn01 : s.opcodes.length ≤ s1.opcodes.length := ctr1.1
          constructor
          · have ctrA : Ctr s s3 := ctr_trans ctr1 (ctr_trans ctr2 ctr3)
            exact ctr_patch_of ctrA (by omega) _
          · apply ginv_patch g3 _ hp3
            · unfold getFP
              push_cast
              omega
            · unfold getFP
              push_cast
              omega
      have hWhile : ∀ s r, cWhile (f+1) s = .ok r → COk s r := by
        intro s r h
        simp only [cWhile, bind, Except.bind] at h
        cases h1 : cStep f s with
        | error e => rw [h1] at h; exact absurd h (by simp)
        | ok s1 =>
          simp only [h1] at h
          cases h3 : cBlock f (cNext (emitJump s1 Opcode.JUMP_IF_FALSE 0)) with
          | error e => simp only [h3] at h; exact absurd h (by simp)
          | ok s3 =>
            simp only [h3, Except.ok.injEq] at h
            subst h
            intro g
            obtain ⟨ctr1, g1⟩ := ihStep _ _ h1 g
            obtain ⟨ctr2, g2⟩ := cok_emitJump_placeholder s1 Opcode.JUMP_IF_FALSE g1
            obtain ⟨ctr3, g3⟩ :=
              cok_trans (cok_cNext (emitJump s1 Opcode.JUMP_IF_FALSE 0)) (ihBlock _ _ h3) g2
            have hl2 : (emitJump s1 Opcode.JUMP_IF_FALSE 0).opcodes.length
                = s1.opcodes.length + 2 := emitJump_len s1 _ 0
            have hl23 := ctr3.1
            rw [hl2] at hl23
            have hp3 : s1.opcodes.length + 1 < s3.opcodes.length := by omega
            have hn01 : s.opcodes.length ≤ s1.opcodes.length := ctr1.1
            have g4 := ginv_patch g3 (getFP s3 - ((s1.opcodes.length : Int) + 1) + 2) hp3
              (by unfold getFP; push_cast; omega) (by unfold getFP; push_cast; omega)
            constructor
            · have ctrA : Ctr s s3 := ctr_trans ctr1 (ctr_trans ctr2 ctr3)
              have ctrB := ctr_patch_of ctrA (p := s1.opcodes.length + 1) (by omega)
                (getFP s3 - ((s1.opcodes.length : Int) + 1) + 2)
              exact ctr_trans ctrB (ctr_emitJump _ _ _)
            · apply ginv_emitJump g4
              · rw [patch_len]
                unfold getFP
                push_cast
                omega
              · rw [patch_len]
                unfold getFP
                push_cast
                omega
      have hFun : ∀ s r, cFun (f+1) s = .ok r → COk s r := by
        intro s r h
        simp only [cFun, bind, except_bind_ok] at h
        obtain ⟨s1, h1, s2, h2, s4, h4, s5, h5, h⟩ := h
        simp only [Except.ok.injEq] at h
        subst h
        have hs1 := expect_ok h1
        subst hs1
        have hs2 := expect_ok h2
        subst hs2
        have hs4 := expect_ok h4
        subst hs4
        set Q : CState := { s5 with
            opcodes := List.take
              (cNext (readParams (cNext (cNext s)) (cNext (cNext s)).toks.length).1).opcodes.length
              s5.opcodes,
            jumps := List.filter (fun p => decide (p <
              (cNext (readParams (cNext (cNext s)) (cNext (cNext s)).toks.length).1).opcodes.length))
              s5.jumps } with hQ
        intro g
        have hpre : COk s (cNext (readParams (cNext (cNext s)) (cNext (cNext s)).toks.length).1) := by
          apply cok_of_same
          · rw [cNext_opcodes, readParams_opcodes, cNext_opcodes, cNext_opcodes]
          · rw [cNext_jumps, readParams_jumps, cNext_jumps, cNext_jumps]
        obtain ⟨ctr4, g4⟩ := hpre g
        obtain ⟨ctr5, g5⟩ := cok_trans
          (cok_cNext (cNext (readParams (cNext (cNext s)) (cNext (cNext s)).toks.length).1))
          (ihBlock _ _ h5) g4
        have hfpn : (cNext (readParams (cNext (cNext s)) (cNext (cNext s)).toks.length).1).opcodes
            = s.opcodes := by
          rw [cNext_opcodes, readParams_opcodes, cNext_opcodes, cNext_opcodes]
        have hops : List.take
            (cNext (readParams (cNext (cNext s)) (cNext (cNext s)).toks.length).1).opcodes.length
            s5.opcodes
            = (cNext (readParams (cNext (cNext s)) (cNext (cNext s)).toks.length).1).opcodes :=
          ctr5.2.1
        have hjf : List.filter
            (fun p => decide (p <
              (cNext (readParams (cNext (cNext s)) (cNext (cNext s)).toks.length).1).opcodes.length))
            s5.jumps
            = (cNext (readParams (cNext (cNext s)) (cNext (cNext s)).toks.length).1).jumps := by
          obtain ⟨-, -, new, hj, hb⟩ := ctr5
          rw [hj, List.filter_append]
          have hnil : List.filter (fun p => decide (p <
              (cNext (readParams (cNext (cNext s)) (cNext (cNext s)).toks.length).1).opcodes.length))
              new = [] := by
            rw [List.filter_eq_nil_iff]
            intro p hp
            have := hb p hp
            simp only [decide_eq_true_eq]
            omega
          have hself : List.filter (fun p => decide (p <
              (cNext (readParams (cNext (cNext s)) (cNext (cNext s)).toks.length).1).opcodes.length))
              (cNext (readParams (cNext (cNext s)) (cNext (cNext s)).toks.length).1).jumps
              = (cNext (readParams (cNext (cNext s)) (cNext (cNext s)).toks.length).1).jumps := by
            rw [List.filter_eq_self]
            intro p hp
            have := (g4 p hp).1
            simp only [decide_eq_true_eq]
            omega
          rw [hnil, hself, List.nil_append]
        have hsplice : COk s Q := by
          rw [hQ]
          exact cok_of_same (hops.trans hfpn)
            (hjf.trans (by rw [cNext_jumps, readParams_jumps, cNext_jumps, cNext_jumps]))
        refine cok_trans hsplice (cok_trans (cok_of_same ?_ ?_) (cok_emit _ _)) g
        · rw [defineConstant_opcodes, defineConstant_opcodes, allocValue_opcodes]
        · rw [defineConstant_jumps, defineConstant_jumps, allocValue_jumps]
      have hHandle : ∀ s r, cHandle (f+1) s = .ok r → COk s r := by
        intro s r h
        simp only [cHandle] at h
        split at h
        · exact cok_trans (cok_cNext s) (ihExpr _ _ h)
        · exact absurd h cThrow_ne_ok
        · exact ihBin _ _ _ h
        · exact ihBinA _ _ _ h
        · -- minus: unary negate or binary sub
          simp only [bind, except_bind_ok] at h
          obtain ⟨s1, h1, h⟩ := h
          split at h
          · simp only [Except.ok.injEq] at h
            subst h
            exact cok_trans (ihStep _ _ h1) (cok_emit _ _)
          · simp only [except_bind_ok] at h
            obtain ⟨s2, h2, h⟩ := h
            simp only [Except.ok.injEq] at h
            subst h
            exact cok_trans (ihStep _ _ h1) (cok_trans (ihStep _ _ h2) (cok_emit _ _))
        · exact ihBinA _ _ _ h
        · exact ihBin _ _ _ h
        · exact ihBinA _ _ _ h
        · exact ihBin _ _ _ h
        · exact ihBinA _ _ _ h
        · exact ihBin _ _ _ h
        · exact ihBinA _ _ _ h
        · exact ihBin _ _ _ h
        · -- equal: (= VAR SEXPR)
          simp only [bind, except_bind_ok] at h
          obtain ⟨s1, h1, s2, h2, h⟩ := h
          simp only [Except.ok.injEq] at h
          subst h
          have hs1 := expect_ok h1
          subst hs1
          refine cok_trans (cok_cNext s) (cok_trans (ihStep _ _ h2) ?_)
          exact cok_trans (cok_of_same (defineConstant_opcodes _ _) (defineConstant_jumps _ _))
            (cok_emit _ _)
        · exact ihBin _ _ _ h
        · -- bang
          simp only [bind, except_bind_ok] at h
          obtain ⟨s1, h1, h⟩ := h
          simp only [Except.ok.injEq] at h
          subst h
          exact cok_trans (ihStep _ _ h1) (cok_emit _ _)
        · exact ihBin _ _ _ h
        · exact ihBin _ _ _ h
        · exact ihBin _ _ _ h
        · exact ihBin _ _ _ h
        · exact ihBin _ _ _ h
        · exact ihBin _ _ _ h
        · -- ident: call
          simp only [bind, except_bind_ok] at h
          obtain ⟨r1, h1, h⟩ := h
          simp only [Except.ok.injEq] at h
          subst h
          refine cok_trans (t := (defineConstant s (.str s.cur.lexStr)).1)
            (cok_of_same (defineConstant_opcodes _ _) (defineConstant_jumps _ _)) ?_
          exact cok_trans (ihArgs _ _ _ h1) (cok_emit _ _)
        · exact ihWhile _ _ h
        · exact ihFun _ _ h
        · exact ihIf _ _ h
        · -- let
          simp only [bind, except_bind_ok] at h
          obtain ⟨s1, h1, s2, h2, h⟩ := h
          simp only [Except.ok.injEq] at h
          subst h
          have hs1 := expect_ok h1
          subst hs1
          refine cok_trans (cok_cNext s) (cok_trans (ihStep _ _ h2) ?_)
          exact cok_trans (cok_of_same (defineConstant_opcodes _ _) (defineConstant_jumps _ _))
            (cok_emit _ _)
        · -- import
          simp only [bind, except_bind_ok] at h
          obtain ⟨s1, h1, h⟩ := h
          simp only [Except.ok.injEq] at h
          subst h
          have hs1 := expect_ok h1
          subst hs1
          refine cok_trans (cok_cNext s) ?_
          exact cok_trans (cok_of_same (defineConstant_opcodes _ _) (defineConstant_jumps _ _))
            (cok_emit _ _)
        · exact absurd h cThrow_ne_ok
        · exact absurd h cThrow_ne_ok
        · exact absurd h cThrow_ne_ok
      exact ⟨hStep, hSexp, hExpr, hHandle, hBin, hBinA, hBlock, hArgs, hIf, hWhile, hFun⟩

theorem compileLoop_contract : ∀ f s r, compileLoop f s = .ok (r, true) → COk s r := by
  intro f
  induction f with
  | zero => intro s r h; exact absurd h (by simp [compileLoop])
  | succ f ih =>
      intro s r h
      simp only [compileLoop] at h
      split at h
      · simp only [Except.ok.injEq, Prod.mk.injEq] at h
        exact absurd h.2 (by simp)
      · split at h
        · simp only [Except.ok.injEq, Prod.mk.injEq] at h
          obtain ⟨h1, -⟩ := h
          subst h1
          exact cok_cNext s
        · split at h
          · rename_i s2 heq
            exact cok_trans (cok_cNext s)
              (cok_trans ((compiler_contract f).2.1 _ _ heq) (ih _ _ h))
          · exact absurd h (by simp)
          · simp only [Except.ok.injEq, Prod.mk.injEq] at h
            exact absurd h.2 (by simp)

/-- Claim C1 amended: for every program the compiler accepts, every
JUMP / JUMP_IF_FALSE offset d stored at operand position p of the
emitted opcode array satisfies -1 ≤ p + d ≤ len(code) (the while
back-jump of a loop whose condition starts at offset 0 attains
p + d = -1, so the lower bound 0 of the original claim is weakened to
-1; the if-without-else patch E - P1 + 2 satisfies 0 ≤ p + d ≤ len). -/
theorem compile_jump_bounds (fuel : ℕ) (toks : List Token) (s : CState)
    (h : compile fuel toks = some (s, true)) :
    ∀ p ∈ s.jumps, p < s.opcodes.length
      ∧ (-1 : Int) ≤ (p : Int) + cellAt s p
      ∧ (p : Int) + cellAt s p ≤ (s.opcodes.length : Int) := by
  unfold compile at h
  cases hl : compileLoop fuel (initCState toks) with
  | error e =>
    rw [hl] at h
    exact absurd h (by simp)
  | ok pr =>
    obtain ⟨s0, acc⟩ := pr
    rw [hl] at h
    simp only [Option.some.injEq, Prod.mk.injEq] at h
    obtain ⟨hs, hacc⟩ := h
    subst hacc
    have g0 : GInv (initCState toks) := by
      intro p hp
      simp [initCState] at hp
    obtain ⟨-, gE⟩ := compileLoop_contract fuel _ _ hl g0
    subst hs
    intro p hp
    have hp0 : p ∈ s0.jumps := by simpa [emit] using hp
    obtain ⟨h1, h2, h3⟩ := gE p hp0
    have hpre : (emit s0 [Opcode.RETURN]).opcodes.take s0.opcodes.length = s0.opcodes := by
      simp [emit]
    have hc := cellAt_of_prefix hpre h1
    have hlen : (emit s0 [Opcode.RETURN]).opcodes.length = s0.opcodes.length + 1 := by
      simp [emit]
    refine ⟨by omega, by rw [hc]; exact h2, ?_⟩
    rw [hc, hlen]
    push_cast
    push_cast at h3
    linarith

/-- Witness for C1 amended at the program `(while true ())`: the
back-jump operand at p = 4 holds d = -5, with -1 ≤ 4 + (-5) ≤ 6. -/
theorem compile_jump_bounds_witness :
    4 < (⟨eofToken, [], [], [4, 21, 2, 20, -5, 24], 0, [4, 2]⟩ : CState).opcodes.length
    ∧ (-1 : Int) ≤ (4 : Int) + cellAt ⟨eofToken, [], [], [4, 21, 2, 20, -5, 24], 0, [4, 2]⟩ 4
    ∧ (4 : Int) + cellAt ⟨eofToken, [], [], [4, 21, 2, 20, -5, 24], 0, [4, 2]⟩ 4
      ≤ ((⟨eofToken, [], [], [4, 21, 2, 20, -5, 24], 0, [4, 2]⟩ : CState).opcodes.length : Int) := by
  have h := compile_jump_bounds 32 demoWhileToks
    ⟨eofToken, [], [], [4, 21, 2, 20, -5, 24], 0, [4, 2]⟩ (by decide)
  exact h 4 (by decide)

theorem cNext_constants (s : CState) : (cNext s).constants = s.constants := by
  unfold cNext
  cases s.toks <;> rfl

theorem readParams_constants (s : CState) (f : ℕ) : (readParams s f).1.constants = s.constants := by
  induction f generalizing s with
  | zero => rfl
  | succ f ih =>
      unfold readParams
      split
      · rw [ih (cNext s), cNext_constants]
      · rfl

theorem emit_constants (s : CState) (ops : List Int) : (emit s ops).constants = s.constants := rfl

theorem emitJump_constants (s : CState) (op off : Int) :
    (emitJump s op off).constants = s.constants := rfl

theorem patch_constants (s : CState) (p : ℕ) (v : Int) :
    (patch s p v).constants = s.constants := rfl

theorem allocValue_constants (s : CState) (v : Value) :
    (allocValue s v).1.constants = s.constants := rfl

/-- defineConstant only ever appends to the constant pool. -/
theorem defineConstant_pool_grows (s : CState) (c : Const) :
    s.constants <+: (defineConstant s c).1.constants := by
  unfold defineConstant
  split
  · exact List.prefix_rfl
  · exact ⟨[c], rfl⟩

theorem defineConstant_pool_grows2 (s : CState) (c1 c2 : Const) :
    s.constants <+: (defineConstant (defineConstant s c1).1 c2).1.constants :=
  (defineConstant_pool_grows s c1).trans (defineConstant_pool_grows _ c2)

/-- The constant pool is append-only across compilation: the pool at
the entry of any compiler routine is a prefix of the pool at its
successful exit (defineConstant is the only operation that touches the
pool, and it only ever appends; the fun splice restores opcodes and
jumps but keeps the pool). -/
theorem compiler_pool_mono (f : ℕ) :
    (∀ s r, cStep f s = .ok r → s.constants <+: r.constants) ∧
    (∀ s r, cSExpression f s = .ok r → s.constants <+: r.constants) ∧
    (∀ s r, cExpression f s = .ok r → s.constants <+: r.constants) ∧
    (∀ s r, cHandle f s = .ok r → s.constants <+: r.constants) ∧
    (∀ op s r, cBinary f op s = .ok r → s.constants <+: r.constants) ∧
    (∀ op s r, cBinaryAssign f op s = .ok r → s.constants <+: r.constants) ∧
    (∀ s r, cBlock f s = .ok r → s.constants <+: r.constants) ∧
    (∀ s n r, cCallArgs f s n = .ok r → s.constants <+: r.1.constants) ∧
    (∀ s r, cIf f s = .ok r → s.constants <+: r.constants) ∧
    (∀ s r, cWhile f s = .ok r → s.constants <+: r.constants) ∧
    (∀ s r, cFun f s = .ok r → s.constants <+: r.constants) := by
  induction f with
  | zero =>
      exact ⟨fun s r h => absurd h (by simp [cStep]),
             fun s r h => absurd h (by simp [cSExpression]),
             fun s r h => absurd h (by simp [cExpression]),
             fun s r h => absurd h (by simp [cHandle]),
             fun op s r h => absurd h (by simp [cBinary]),
             fun op s r h => absurd h (by simp [cBinaryAssign]),
             fun s r h => absurd h (by simp [cBlock]),
             fun s n r h => absurd h (by simp [cCallArgs]),
             fun s r h => absurd h (by simp [cIf]),
             fun s r h => absurd h (by simp [cWhile]),
             fun s r h => absurd h (by simp [cFun])⟩
  | succ f ih =>
      obtain ⟨ihStep, ihSexp, ihExpr, ihHandle, ihBin, ihBinA, ihBlock, ihArgs, ihIf, ihWhile, ihFun⟩ := ih
      have hStep : ∀ s r, cStep (f+1) s = .ok r → s.constants <+: r.constants := by
        intro s r h
        simp only [cStep] at h
        have hA := ihSexp _ _ h
        rwa [cNext_constants] at hA
      have hSexp : ∀ s r, cSExpression (f+1) s = .ok r → s.constants <+: r.constants := by
        intro s r h
        simp only [cSExpression] at h
        split at h
        · have hA := ihExpr _ _ h
          rwa [cNext_constants] at hA
        · injection h with h
          subst h
          exact defineConstant_pool_grows _ _
        · injection h with h
          subst h
          simp only [stringAtom, emit_constants]
          have hp := defineConstant_pool_grows (allocValue s (.str (some s.cur.lexStr))).1
            (allocValue s (.str (some s.cur.lexStr))).2
          rw [allocValue_constants] at hp
          exact hp
        · injection h with h
          subst h
          simp only [numberAtom, emit_constants]
          have hp := defineConstant_pool_grows (allocValue s (.num s.cur.lexNum)).1
            (allocValue s (.num s.cur.lexNum)).2
          rw [allocValue_constants] at hp
          exact hp
        · injection h with h
          subst h
          exact List.prefix_rfl
        · injection h with h
          subst h
          exact List.prefix_rfl
        · exact absurd h cThrow_ne_ok
      have hBin : ∀ op s r, cBinary (f+1) op s = .ok r → s.constants <+: r.constants := by
        intro op s r h
        simp only [cBinary, bind, except_bind_ok] at h
        obtain ⟨s1, h1, s2, h2, h⟩ := h
        simp only [Except.ok.injEq] at h
        subst h
        simp only [emit_constants]
        exact (ihStep _ _ h1).trans (ihStep _ _ h2)
      have hExpr : ∀ s r, cExpression (f+1) s = .ok r → s.constants <+: r.constants := by
        intro s r h
        simp only [cExpression, bind, except_bind_ok] at h
        obtain ⟨s1, h1, h2⟩ := h
        have h3 := expect_ok h2
        subst h3
        rw [cNext_constants]
        exact ihHandle _ _ h1
      have hBlock : ∀ s r, cBlock (f+1) s = .ok r → s.constants <+: r.constants := by
        intro s r h
        simp only [cBlock, bind, Except.bind] at h
        split at h
        · injection h with h
          subst h
          simp only [cNext_constants]
          exact List.prefix_rfl
        · cases h1 : cSExpression f (cNext s) with
          | error e => rw [h1] at h; exact absurd h (by simp)
          | ok s1 =>
            simp only [h1] at h
            have hA := ihSexp _ _ h1
            rw [cNext_constants] at hA
            exact hA.trans (ihBlock _ _ h)
      have hArgs : ∀ s n r, cCallArgs (f+1) s n = .ok r → s.constants <+: r.1.constants := by
        intro s n r h
        simp only [cCallArgs, bind, Except.bind] at h
        split at h
        · injection h with h
          subst h
          exact List.prefix_rfl
        · cases h1 : cStep f s with
          | error e => rw [h1] at h; exact absurd h (by simp)
          | ok s1 =>
            simp only [h1] at h
            exact (ihStep _ _ h1).trans (ihArgs _ _ _ h)
      have hBinA : ∀ op s r, cBinaryAssign (f+1) op s = .ok r → s.constants <+: r.constants := by
        intro op s r h
        simp only [cBinaryAssign, bind, Except.bind] at h
        cases h1 : expect s .ident "expected identifier" with
        | error e => rw [h1] at h; exact absurd h (by simp)
        | ok s1 =>
          simp only [h1] at h
          have hs1 := expect_ok h1
          subst hs1
          cases h2 : cStep f (emit (defineConstant (cNext s) (.str (cNext s).cur.lexStr)).1
              [Opcode.GET_VARIABLE, ((defineConstant (cNext s) (.str (cNext s).cur.lexStr)).2 : Int)]) with
          | error e => rw [h2] at h; exact absurd h (by simp)
          | ok s4 =>
            simp only [h2, Except.ok.injEq] at h
            subst h
            have hA := ihStep _ _ h2
            simp only [emit_constants] at hA
            have hp := defineConstant_pool_grows (cNext s) (.str (cNext s).cur.lexStr)
            rw [cNext_constants] at hp
            simp only [emit_constants]
            exact hp.trans hA
      have hIf : ∀ s r, cIf (f+1) s = .ok r → s.constants <+: r.constants := by
        intro s r h
        simp only [cIf, bind, except_bind_ok] at h
        obtain ⟨s1, h1, s3, h3, h⟩ := h
        have hA := ihStep _ _ h1
        have hB := ihBlock _ _ h3
        rw [cNext_constants] at hB
        have hB2 : s1.constants <+: s3.constants := hB
        split at h
        · simp only [except_bind_ok] at h
          obtain ⟨s6, h6, h⟩ := h
          simp only [Except.ok.injEq] at h
          subst h
          have hC := ihBlock _ _ h6
          rw [cNext_constants] at hC
          have hC2 : s3.constants <+: s6.constants := hC
          exact (hA.trans hB2).trans hC2
        · simp only [Except.ok.injEq] at h
          subst h
          exact hA.trans hB2
      have hWhile : ∀ s r, cWhile (f+1) s = .ok r → s.constants <+: r.constants := by
        intro s r h
        simp only [cWhile, bind, Except.bind] at h
        cases h1 : cStep f s with
        | error e => rw [h1] at h; exact absurd h (by simp)
        | ok s1 =>
          simp only [h1] at h
          cases h3 : cBlock f (cNext (emitJump s1 Opcode.JUMP_IF_FALSE 0)) with
          | error e => simp only [h3] at h; exact absurd h (by simp)
          | ok s3 =>
            simp only [h3, Except.ok.injEq] at h
            subst h
            have hB := ihBlock _ _ h3
            rw [cNext_constants] at hB
            have hB2 : s1.constants <+: s3.constants := hB
            exact (ihStep _ _ h1).trans hB2
      have hFun : ∀ s r, cFun (f+1) s = .ok r → s.constants <+: r.constants := by
        intro s r h
        simp only [cFun, bind, except_bind_ok] at h
        obtain ⟨s1, h1, s2, h2, s4, h4, s5, h5, h⟩ := h
        simp only [Except.ok.injEq] at h
        subst h
        have hs1 := expect_ok h1
        subst hs1
        have hs2 := expect_ok h2
        subst hs2
        have hs4 := expect_ok h4
        subst hs4
        have hA := ihBlock _ _ h5
        simp only [cNext_constants, readParams_constants] at hA
        refine hA.trans ?_
        simp only [emit_constants]
        refine List.IsPrefix.trans ?_ (defineConstant_pool_grows _ _)
        refine List.IsPrefix.trans ?_ (defineConstant_pool_grows _ _)
        rw [allocValue_constants]
      have hHandle : ∀ s r, cHandle (f+1) s = .ok r → s.constants <+: r.constants := by
        intro s r h
        simp only [cHandle] at h
        split at h
        · have hA := ihExpr _ _ h
          rwa [cNext_constants] at hA
        · exact absurd h cThrow_ne_ok
        · exact ihBin _ _ _ h
        · exact ihBinA _ _ _ h
        · -- minus: unary negate or binary sub
          simp only [bind, except_bind_ok] at h
          obtain ⟨s1, h1, h⟩ := h
          split at h
          · simp only [Except.ok.injEq] at h
            subst h
            simp only [emit_constants]
            exact ihStep _ _ h1
          · simp only [except_bind_ok] at h
            obtain ⟨s2, h2, h⟩ := h
            simp only [Except.ok.injEq] at h
            subst h
            simp only [emit_constants]
            exact (ihStep _ _ h1).trans (ihStep _ _ h2)
        · exact ihBinA _ _ _ h
        · exact ihBin _ _ _ h
        · exact ihBinA _ _ _ h
        · exact ihBin _ _ _ h
        · exact ihBinA _ _ _ h
        · exact ihBin _ _ _ h
        · exact ihBinA _ _ _ h
        · exact ihBin _ _ _ h
        · -- equal: (= VAR SEXPR)
          simp only [bind, except_bind_ok] at h
          obtain ⟨s1, h1, s2, h2, h⟩ := h
          simp only [Except.ok.injEq] at h
          subst h
          have hs1 := expect_ok h1
          subst hs1
          have hA := ihStep _ _ h2
          rw [cNext_constants] at hA
          simp only [emit_constants]
          exact hA.trans (defineConstant_pool_grows _ _)
        · exact ihBin _ _ _ h
        · -- bang
          simp only [bind, except_bind_ok] at h
          obtain ⟨s1, h1, h⟩ := h
          simp only [Except.ok.injEq] at h
          subst h
          simp only [emit_constants]
          exact ihStep _ _ h1
        · exact ihBin _ _ _ h
        · exact ihBin _ _ _ h
        · exact ihBin _ _ _ h
        · exact ihBin _ _ _ h
        · exact ihBin _ _ _ h
        · exact ihBin _ _ _ h
        · -- ident: call
          simp only [bind, except_bind_ok] at h
          obtain ⟨r1, h1, h⟩ := h
          simp only [Except.ok.injEq] at h
          subst h
          simp only [emit_constants]
          exact (defineConstant_pool_grows s (.str s.cur.lexStr)).trans (ihArgs _ _ _ h1)
        · exact ihWhile _ _ h
        · exact ihFun _ _ h
        · exact ihIf _ _ h
        · -- let
          simp only [bind, except_bind_ok] at h
          obtain ⟨s1, h1, s2, h2, h⟩ := h
          simp only [Except.ok.injEq] at h
          subst h
          have hs1 := expect_ok h1
          subst hs1
          have hA := ihStep _ _ h2
          rw [cNext_constants] at hA
          simp only [emit_constants]
          exact hA.trans (defineConstant_pool_grows _ _)
        · -- import
          simp only [bind, except_bind_ok] at h
          obtain ⟨s1, h1, h⟩ := h
          simp only [Except.ok.injEq] at h
          subst h
          have hs1 := expect_ok h1
          subst hs1
          have hp := defineConstant_pool_grows (cNext s) (.str (cNext s).cur.lexStr)
          rw [cNext_constants] at hp
          simp only [emit_constants]
          exact hp
        · exact absurd h cThrow_ne_ok
        · exact absurd h cThrow_ne_ok
        · exact absurd h cThrow_ne_ok
      exact ⟨hStep, hSexp, hExpr, hHandle, hBin, hBinA, hBlock, hArgs, hIf, hWhile, hFun⟩

/-- The pool is append-only across the whole main loop of an accepted
compilation. -/
theorem compileLoop_pool_mono : ∀ f s r, compileLoop f s = .ok (r, true) →
    s.constants <+: r.constants := by
  intro f
  induction f with
  | zero => intro s r h; exact absurd h (by simp [compileLoop])
  | succ f ih =>
      intro s r h
      simp only [compileLoop] at h
      split at h
      · simp only [Except.ok.injEq, Prod.mk.injEq] at h
        exact absurd h.2 (by simp)
      · split at h
        · simp only [Except.ok.injEq, Prod.mk.injEq] at h
          obtain ⟨h1, -⟩ := h
          subst h1
          simp only [cNext_constants]
          exact List.prefix_rfl
        · split at h
          · rename_i s2 heq
            have hA := (compiler_pool_mono f).2.1 _ _ heq
            rw [cNext_constants] at hA
            exact hA.trans (ih _ _ h)
          · exact absurd h (by simp)
          · simp only [Except.ok.injEq, Prod.mk.injEq] at h
            exact absurd h.2 (by simp)

/-- Interning is stable under pool extension: after a defineConstant
call interns the name string n, a later defineConstant call on n in
any state whose pool extends the pool left by the first call returns
the same index and leaves the state untouched. -/
theorem defineConstant_stable (s t : CState) (n : String)
    (hext : (defineConstant s (.str n)).1.constants <+: t.constants) :
    (defineConstant t (.str n)).2 = (defineConstant s (.str n)).2
    ∧ (defineConstant t (.str n)).1 = t := by
  obtain ⟨ext, hextEq⟩ := hext
  rcases h : s.constants.findIdx? (fun v => constEqJS v (.str n)) with - | i
  · have hpool : (defineConstant s (.str n)).1.constants = s.constants ++ [.str n] := by
      unfold defineConstant
      rw [h]
    have hidx : (defineConstant s (.str n)).2 = s.constants.length := by
      unfold defineConstant
      rw [h]
    have hT : t.constants = (s.constants ++ [Const.str n]) ++ ext := by
      rw [← hpool, hextEq]
    have hfind : t.constants.findIdx? (fun v => constEqJS v (.str n))
        = some s.constants.length := by
      rw [hT, List.append_assoc, List.findIdx?_append, h]
      simp [constEqJS]
    have h2 : defineConstant t (.str n) = (t, s.constants.length) := by
      unfold defineConstant
      rw [hfind]
    rw [h2, hidx]
    exact ⟨rfl, rfl⟩
  · have hfirst : defineConstant s (.str n) = (s, i) := by
      unfold defineConstant
      rw [h]
    have hT : t.constants = s.constants ++ ext := by
      rw [hfirst] at hextEq
      exact hextEq.symm
    have hfind : t.constants.findIdx? (fun v => constEqJS v (.str n)) = some i := by
      rw [hT, List.findIdx?_append, h]
      simp
    have h2 : defineConstant t (.str n) = (t, i) := by
      unfold defineConstant
      rw [hfind]
    rw [h2, hfirst]
    exact ⟨rfl, rfl⟩

/-- Claim C8 (amended): compiling a program interns identifier name
strings but never Number/String literal Values. Once a defineConstant
call interns the name string n, any later defineConstant call on n -
in any state whose constant pool extends the pool left by the first
call, i.e. after arbitrarily many intervening insertions - returns
the same index and leaves the state untouched; and the compiler only
ever extends the pool (every successful cStep, and every accepted
compileLoop run, takes the pool to a list it is a prefix of), so all
occurrences of one name in a compiled program share one constant-pool
index. A freshly allocated Number/String literal Value, by contrast,
never matches the reference-equality search of defineConstant: it
always appends a fresh index, so equal literals occupy distinct pool
entries. -/
theorem define_constant_interns_names (s t : CState) (n : String)
    (hext : (defineConstant s (.str n)).1.constants <+: t.constants) :
    ((defineConstant t (.str n)).2 = (defineConstant s (.str n)).2
      ∧ (defineConstant t (.str n)).1 = t)
    ∧ (∀ f u, cStep f t = .ok u → t.constants <+: u.constants)
    ∧ (∀ f u, compileLoop f t = .ok (u, true) → t.constants <+: u.constants)
    ∧ (∀ (u : CState) (v : Value), PoolWF u →
        (defineConstant (allocValue u v).1 (allocValue u v).2).2 = u.constants.length
        ∧ (defineConstant (allocValue u v).1 (allocValue u v).2).1.constants
            = u.constants ++ [.val u.nextId v]) := by
  refine ⟨defineConstant_stable s t n hext, ?_, ?_, ?_⟩
  · intro f u hu
    exact (compiler_pool_mono f).1 _ _ hu
  · intro f u hu
    exact compileLoop_pool_mono f t u hu
  · intro u v hwf
    exact define_constant_fresh_value_appends u v hwf

/-- A pool as left by interning "x" on the empty pool and then one
intervening Value insertion. -/
def demoPoolState : CState :=
  { cur := eofToken, toks := [⟨.number, .num (some 2)⟩],
    constants := [.str "x", .val 0 (.num (some 1))],
    opcodes := [], nextId := 1, jumps := [] }

/-- Witness for C8 amended: with the pool [x, NumberValue-1] - "x"
interned on the empty pool, then one intervening Value insertion - a
later defineConstant on "x" returns the original index 0 and leaves
the state unchanged, while interning a freshly allocated NumberValue 1
appends the new index 2. -/
theorem define_constant_witness :
    (defineConstant demoPoolState (.str "x")).2 = 0
    ∧ (defineConstant demoPoolState (.str "x")).1 = demoPoolState
    ∧ (defineConstant (allocValue demoPoolState (.num (some 1))).1
        (allocValue demoPoolState (.num (some 1))).2).2 = 2 := by
  have h := define_constant_interns_names (initCState []) demoPoolState "x"
    ⟨[Const.val 0 (Value.num (some 1))], by decide⟩
  refine ⟨?_, h.1.2, ?_⟩
  · rw [h.1.1]
    decide
  · have hwf : PoolWF demoPoolState := by
      intro i w hw
      show i < 1
      simp only [demoPoolState, List.mem_cons, List.not_mem_nil, or_false] at hw
      rcases hw with h1 | h1
      · exact absurd h1 (by simp)
      · injection h1 with hi hw2
        omega
    have h2 := h.2.2.2 demoPoolState (.num (some 1)) hwf
    rw [h2.1]
    rfl

/-- An environment (env.js): an insertion-ordered map, modelled as an
association list ordered by insertion. Keys compare by JavaScript
SameValueZero, modelled structurally (keys are name strings in every
compiled program). -/
abbrev Env := List (JSVal × JSVal)

def envHas (e : Env) (k : JSVal) : Bool := e.any (fun kv => kv.1 == k)

def envGet (e : Env) (k : JSVal) : Option JSVal := (e.find? (fun kv => kv.1 == k)).map (fun kv => kv.2)

/-- Env.setIdentifier: Map.set updates an existing key in place
(keeping its insertion position) or appends a new one. -/
def envSet (e : Env) (k v : JSVal) : Env :=
  if envHas e k then e.map (fun kv => if kv.1 == k then (k, v) else kv) else e ++ [(k, v)]

/-- Env.addFromEnv: set every entry of mod into target, in insertion
order. -/
def envMerge (target mod : Env) : Env :=
  mod.foldl (fun t kv => envSet t kv.1 kv.2) target

/-- The whitespace characters trimmed by the string-to-number
conversion (the ASCII ones; no exotic Unicode space occurs in this
development). -/
def jsIsSpace (c : Char) : Bool :=
  c = ' ' || c = '\t' || c = '\n' || c = '\r' || c = '\x0b' || c = '\x0c'

def digitsToNat (ds : List Char) : ℕ :=
  ds.foldl (fun a c => a * 10 + (c.toNat - 48)) 0

/-- An unsigned radix-R integer literal (the 0x / 0o / 0b forms): all
remaining characters must be digits of the radix, at least one. -/
def jsParseRadix (radix : ℕ) (dig : Char → Option ℕ) (cs : List Char) : Option ℚ :=
  if cs ≠ [] ∧ cs.all (fun c => (dig c).isSome) then
    some ((cs.foldl (fun a c => a * radix + (dig c).getD 0) 0 : ℕ) : ℚ)
  else none

def octVal (c : Char) : Option ℕ :=
  if '0' ≤ c ∧ c ≤ '7' then some (c.toNat - 48) else none

def binVal (c : Char) : Option ℕ :=
  if c = '0' ∨ c = '1' then some (c.toNat - 48) else none

def decVal (c : Char) : Option ℕ :=
  if '0' ≤ c ∧ c ≤ '9' then some (c.toNat - 48) else none

/-- The exponent digits of a decimal literal (at least one). -/
def jsParseExpDigits (cs : List Char) (sign : ℤ) : Option (ℤ × List Char) :=
  let p := cs.span (fun c => c.isDigit)
  if p.1.isEmpty then none else some (sign * (digitsToNat p.1 : ℤ), p.2)

/-- The ExponentPart of a decimal literal: empty, or e/E with an
optionally signed digit sequence. -/
def jsParseExpPart (cs : List Char) : Option (ℤ × List Char) :=
  match cs with
  | 'e' :: '+' :: r => jsParseExpDigits r 1
  | 'e' :: '-' :: r => jsParseExpDigits r (-1)
  | 'e' :: r => jsParseExpDigits r 1
  | 'E' :: '+' :: r => jsParseExpDigits r 1
  | 'E' :: '-' :: r => jsParseExpDigits r (-1)
  | 'E' :: r => jsParseExpDigits r 1
  | r => some (0, r)

/-- The value of integer digits, fraction digits and a decimal
exponent. -/
def jsDecValue (ip fp : List Char) (e : ℤ) : ℚ :=
  ((digitsToNat ip : ℚ) + (digitsToNat fp : ℚ) / (10 : ℚ) ^ fp.length) * (10 : ℚ) ^ e

/-- An unsigned decimal literal consumed to the end: digits with an
optional fraction and exponent, ".digits", or "Infinity". The model
has no infinities (declared at the top), so the successful "Infinity"
parse is rendered as the model NaN; no theorem depends on it. -/
def jsParseDecFull (cs : List Char) : Option ℚ :=
  if cs = "Infinity".toList then none
  else
    let ipp := cs.span (fun c => c.isDigit)
    match ipp.2 with
    | '.' :: r =>
        let fpp := r.span (fun c => c.isDigit)
        if ipp.1.isEmpty ∧ fpp.1.isEmpty then none
        else
          match jsParseExpPart fpp.2 with
          | some (e, []) => some (jsDecValue ipp.1 fpp.1 e)
          | _ => none
    | rest =>
        if ipp.1.isEmpty then none
        else
          match jsParseExpPart rest with
          | some (e, []) => some (jsDecValue ipp.1 [] e)
          | _ => none

/-- ToNumber of a JavaScript string: trimmed empty is 0, an optionally
signed decimal literal, or an unsigned 0x / 0o / 0b integer literal;
everything else is NaN. -/
def jsStringToNumber (t : String) : JSNum :=
  let cs := ((t.toList.dropWhile jsIsSpace).reverse.dropWhile jsIsSpace).reverse
  match cs with
  | [] => some 0
  | '0' :: 'x' :: r => jsParseRadix 16 hexVal r
  | '0' :: 'X' :: r => jsParseRadix 16 hexVal r
  | '0' :: 'o' :: r => jsParseRadix 8 octVal r
  | '0' :: 'O' :: r => jsParseRadix 8 octVal r
  | '0' :: 'b' :: r => jsParseRadix 2 binVal r
  | '0' :: 'B' :: r => jsParseRadix 2 binVal r
  | '+' :: r => jsParseDecFull r
  | '-' :: r => (jsParseDecFull r).map (fun q => -q)
  | r => jsParseDecFull r

/-- ToNumeric, as the ++ of the op fetch applies it to the fp slot
(`this.#frames[this.#frameIdx][this.#fp++]`). A raw number passes
through, undefined is NaN, a host string is parsed by the numeric
grammar. A Value goes through ToPrimitive: its valueOf is the object
itself, so its toString() runs - throwing for an Error value, whose
getValue() throws inside toString. NumberValue.toString is the decimal
text of the number, which ToNumber parses back to exactly that number,
so that case is the number itself; StringValue.toString returns the
raw payload (the host undefined payload gives NaN); the text of every
other variant is non-numeric and gives NaN. -/
def jsToNumber : JSVal → Except Unit JSNum
  | .raw q => .ok q
  | .undefined => .ok none
  | .str t => .ok (jsStringToNumber t)
  | .val (.num n) => .ok n
  | .val (.str sp) =>
      .ok (match sp with
           | none => none
           | some t => jsStringToNumber t)
  | .val (.err _) => .error ()
  | .val _ => .ok none

/-- A number plus a jump offset operand (offset undefined gives NaN).
The integer case goes through ℤ so that concrete executions reduce in
the kernel; jsAddOffset_eq shows it is plain addition. -/
def jsAddOffset (q : JSNum) (off : Option Int) : JSNum :=
  match q, off with
  | some x, some o => some (if x.den = 1 then ((x.num + o : ℤ) : ℚ) else x + o)
  | _, _ => none

theorem jsAddOffset_eq (q : JSNum) (o : Int) :
    jsAddOffset q (some o) = Option.map (fun x => x + (o : ℚ)) q := by
  cases q with
  | none => rfl
  | some x =>
      simp only [jsAddOffset, Option.map_some']
      split
      · rename_i h
        have h2 := Rat.num_div_den x
        rw [h] at h2
        push_cast at h2
        rw [div_one] at h2
        push_cast
        rw [h2]
      · rfl

/-- String(x) of a jump offset operand in a concatenation position. -/
def offText : Option Int → String
  | none => "undefined"
  | some o => toString o

/-- The JavaScript += of the two jump handlers applied to the fp slot.
The operand fetch that just ran always leaves a raw number in fp, so
the addition is numeric on every path the VM takes; on the remaining
shapes + follows JavaScript: string shapes concatenate with String(offset),
undefined + number is NaN, and a Value goes through its toString,
which throws for an Error value. -/
def fpPlusOffset (v : JSVal) (off : Option Int) : Except Unit JSVal :=
  match v with
  | .raw q => .ok (.raw (jsAddOffset q off))
  | .undefined => .ok (.raw none)
  | .str t => .ok (.str (t ++ offText off))
  | .val w =>
      match w.toStr with
      | .error e => .error e
      | .ok t => .ok (.str (t ++ offText off))

/-- The VM state (vm.js). The head of envs is the top (innermost) env
and the head of stack is the top of the value stack. The interval
identifiers and the needs_update/needs_draw flags interact only with
the scheduler and the two flag natives and are not modelled; status
uses VMStatus (STOPPED 0, PAUSED 1, RUNNING 2). fp is an arbitrary
JavaScript value: RETURN assigns the popped stack slot to it raw, and
the conversion to a number happens only at the next op fetch
(frames[frameIdx][fp++], which is undefined off the array). -/
structure VMState where
  frames : List (List Int)
  frameIdx : ℕ
  fp : JSVal
  status : ℕ
  constants : List JSVal
  libraries : List (String × Env)
  envs : List Env
  stack : List JSVal
deriving Repr, DecidableEq

/-- VM.#push: discarded at the 65,536 quota. -/
def push (s : VMState) (v : JSVal) : VMState :=
  if s.stack.length = 65536 then s else { s with stack := v :: s.stack }

/-- VM.#pop: Array.pop yields undefined on an empty stack. -/
def pop (s : VMState) : JSVal × VMState :=
  (s.stack.headD .undefined, { s with stack := s.stack.tail })

/-- VM.#peek. -/
def vmPeek (s : VMState) : JSVal := s.stack.headD .undefined

/-- VM.#pushEnv: discarded at the 256 quota. -/
def pushEnv (s : VMState) (e : Env) : VMState :=
  if s.envs.length = 256 then s else { s with envs := e :: s.envs }

/-- VM.#popEnv. -/
def popEnv (s : VMState) : VMState := { s with envs := s.envs.tail }

/-- VM.#pushFrame: the saved fp is pushed onto the VALUE stack (there
is no separate integer stack in vm.js), then the frame is appended and
the pc reset. -/
def pushFrame (s : VMState) (code : List Int) : VMState :=
  let s1 := push s s.fp
  { s1 with frames := s1.frames ++ [code], frameIdx := s1.frameIdx + 1, fp := .raw (some 0) }

/-- stop(): setStatus(STOPPED); interval teardown and console output
are host effects outside the model. -/
def stopVM (s : VMState) : VMState := { s with status := 0 }

/-- constants[idx] with a JavaScript index: undefined off the array or
for an undefined index. -/
def constGet (constants : List JSVal) (idx : Option Int) : JSVal :=
  match idx with
  | none => .undefined
  | some i => if 0 ≤ i then constants.getD i.toNat .undefined else .undefined

/-- code[fp] with a JavaScript number index. -/
def codeFetch (code : List Int) (q : JSNum) : Option Int :=
  match q with
  | some r =>
      if r.den = 1 ∧ 0 ≤ r.num ∧ r.num < (code.length : ℤ) then some (code.getD r.num.toNat 0)
      else none
  | none => none

/-- fp++ on a JavaScript number. The integer case is written through
ℤ so that concrete executions reduce in the kernel; jsIncNum_eq shows
it is exactly +1. -/
def jsIncNum (q : JSNum) : JSNum :=
  match q with
  | some x => some (if x.den = 1 then ((x.num + 1 : ℤ) : ℚ) else x + 1)
  | none => none

theorem jsIncNum_eq (q : JSNum) : jsIncNum q = Option.map (fun x => x + 1) q := by
  cases q with
  | none => rfl
  | some x =>
      simp only [jsIncNum, Option.map_some']
      split
      · rename_i h
        have h2 := Rat.num_div_den x
        rw [h] at h2
        push_cast at h2
        rw [div_one] at h2
        push_cast
        rw [h2]
      · rfl

/-- VM.#next: frames[frameIdx][fp++], in source order. The frame-array
member is looked up first (no throw yet, even when it is undefined);
then the postfix ++ converts fp with ToNumeric - an Error value in the
fp slot throws here, leaving fp unassigned - and stores the number
plus one; then a missing frame array makes the member access throw,
with fp already incremented. Both throws are uncaught when reached
from the op fetch of #step and caught inside a handler. The old
number indexes the code; off the array it yields the undefined op
(ok none). -/
def vmNext (s : VMState) : Except Unit (Option Int) × VMState :=
  match jsToNumber s.fp with
  | .error _ => (.error (), s)
  | .ok q =>
      let s1 := { s with fp := .raw (jsIncNum q) }
      match s.frames.get? s.frameIdx with
      | none => (.error (), s1)
      | some code => (.ok (codeFetch code q), s1)

/-- VM.#findIdentifier: scan the env stack from the top. -/
def findIdentifier (s : VMState) (k : JSVal) : Option ℕ :=
  s.envs.findIdx? (fun e => envHas e k)

/-- VM.#getIdentifier: undefined (none) when no env has the name (the
error return is commented out in the source). -/
def getIdentifier (s : VMState) (k : JSVal) : Option JSVal :=
  match s.envs.find? (fun e => envHas e k) with
  | none => none
  | some e => envGet e k

/-- VM.#addIdentifier: insert into the top env unless present there; a
missing top env (envs[-1]) throws. -/
def addIdentifier (s : VMState) (k v : JSVal) : Except Unit VMState :=
  match s.envs with
  | [] => .error ()
  | e :: rest => if envHas e k then .ok s else .ok { s with envs := envSet e k v :: rest }

/-- VM.#setIdentifier: write to the innermost env holding the name,
else to envs[length-1] - the last env pushed, i.e. the innermost (top)
one, since #pushEnv appends at the end of the array; empty envs throws
(setIdentifier on undefined). -/
def setIdentifierVM (s : VMState) (k v : JSVal) : Except Unit VMState :=
  match s.envs.findIdx? (fun e => envHas e k) with
  | some i => .ok { s with envs := s.envs.set i (envSet (s.envs.getD i []) k v) }
  | none =>
      match s.envs with
      | [] => .error ()
      | e :: rest => .ok { s with envs := envSet e k v :: rest }

/-- The truthiness test `if (condition.getValue())` of JUMP_IF_FALSE:
getValue() of an Error value throws; a Bool gives its payload. Other
variants cannot reach it (not() returns Bool or Error) but follow
JavaScript truthiness of the payload. -/
def condGetValue : Value → Except Unit Bool
  | .bool b => .ok b
  | .err _ => .error ()
  | .num n => .ok (match n with | none => false | some q => decide (q ≠ 0))
  | .str sp => .ok (match sp with | none => false | some t => decide (t ≠ ""))
  | _ => .ok true

/-- The opcodes for which vm.js installs a handler. Opcode.UNDEFINED,
Opcode.FLOOR_DIV, Opcode.OR and Opcode.AND do not exist in compiler.js,
so those four handler entries are all keyed by the property "undefined";
the last one written (AND) wins, and it is what runs when the fetched
op is undefined (pc off the end of the code). -/
inductive OpK where
  | getConst | defVar | getVar | setVar
  | pushTrue | pushFalse | popOp
  | equal | notEqual | greater | greaterEqual | less | lessEqual
  | add | sub | mul | div | mod
  | negate | notOp
  | jump | jumpIfFalse
  | dup
  | call | ret
  | dot | isOp
  | importOp
  | undefKey
deriving DecidableEq, Repr

/-- The handler table lookup: the numeric keys 0..27 (minus the unused
ones) as registered by #initHandlers, the "undefined" key for an
undefined op, and no handler otherwise. -/
def decodeOp : Option Int → Option OpK
  | none => some .undefKey
  | some 0 => some .getConst
  | some 1 => some .defVar
  | some 2 => some .getVar
  | some 3 => some .setVar
  | some 4 => some .pushTrue
  | some 5 => some .pushFalse
  | some 6 => some .popOp
  | some 7 => some .equal
  | some 8 => some .notEqual
  | some 9 => some .greater
  | some 10 => some .greaterEqual
  | some 11 => some .less
  | some 12 => some .lessEqual
  | some 13 => some .add
  | some 14 => some .sub
  | some 15 => some .mul
  | some 16 => some .div
  | some 17 => some .mod
  | some 18 => some .negate
  | some 19 => some .notOp
  | some 20 => some .jump
  | some 21 => some .jumpIfFalse
  | some 22 => some .dup
  | some 23 => some .call
  | some 24 => some .ret
  | some 25 => some .dot
  | some 26 => some .isOp
  | some 27 => some .importOp
  | some _ => none

/-- The shared shape of the binary-operator handlers: pop b then a,
push a.op(b); a JavaScript throw (missing method on a non-Value, or an
Error operand reaching a message template) stops the VM with the pops
retained. -/
def binOp (f : Value → JSVal → Except Unit Value) (s : VMState) : VMState :=
  let r1 := pop s
  let r2 := pop r1.2
  match r2.1 with
  | .val va =>
      match f va r1.1 with
      | .ok v => push r2.2 (.val v)
      | .error _ => stopVM r2.2
  | _ => stopVM r2.2

/-- The shared shape of NEGATE and NOT. -/
def unOp (f : Value → Except Unit Value) (s : VMState) : VMState :=
  let r := pop s
  match r.1 with
  | .val va =>
      match f va with
      | .ok v => push r.2 (.val v)
      | .error _ => stopVM r.2
  | _ => stopVM r.2

/-- The argument pops of the native CALL path: args[i] = pop() for
i = argCount-1 down to 0, so the returned list is in source order
(deepest stack entry first). -/
def popN (s : VMState) : ℕ → List JSVal × VMState
  | 0 => ([], s)
  | n + 1 =>
      let r := pop s
      let rest := popN r.2 n
      (rest.1 ++ [r.1], rest.2)

/-- The parameter binding loop of the Function CALL path: for each
parameter name in order, pop a value into the fresh local env. -/
def bindArgs (fargs : List String) (s : VMState) : Env × VMState :=
  fargs.foldl (fun acc a =>
    let r := pop acc.2
    (envSet acc.1 (.str a) r.1, r.2)) ([], s)

/-- The opcode handlers of VM.#initHandlers, as state transformers. A
JavaScript throw inside a handler is caught by the per-step try
boundary: the VM stops with every mutation made before the throw
retained. -/
def execOp (host : ℕ → List JSVal → JSVal) : OpK → VMState → VMState
  | .getConst, s =>
      match vmNext s with
      | (.error _, s1) => stopVM s1
      | (.ok idx, s1) => push s1 (constGet s1.constants idx)
  | .defVar, s =>
      match vmNext s with
      | (.error _, s1) => stopVM s1
      | (.ok idx, s1) =>
          let k := constGet s1.constants idx
          let r := pop s1
          match addIdentifier r.2 k r.1 with
          | .ok s3 => s3
          | .error _ => stopVM r.2
  | .getVar, s =>
      match vmNext s with
      | (.error _, s1) => stopVM s1
      | (.ok idx, s1) =>
          let k := constGet s1.constants idx
          match getIdentifier s1 k with
          | some v => push s1 v
          | none => push s1 .undefined
  | .setVar, s =>
      match vmNext s with
      | (.error _, s1) => stopVM s1
      | (.ok idx, s1) =>
          let k := constGet s1.constants idx
          let r := pop s1
          match setIdentifierVM r.2 k r.1 with
          | .ok s3 => s3
          | .error _ => stopVM r.2
  | .pushTrue, s => push s (.val (.bool true))
  | .pushFalse, s => push s (.val (.bool false))
  | .popOp, s => (pop s).2
  | .equal, s => binOp Value.eq s
  | .notEqual, s => binOp Value.neq s
  | .greater, s => binOp Value.gt s
  | .greaterEqual, s => binOp Value.gteq s
  | .less, s => binOp Value.lt s
  | .lessEqual, s => binOp Value.lteq s
  | .add, s => binOp Value.add s
  | .sub, s => binOp Value.sub s
  | .mul, s => binOp Value.mul s
  | .div, s => binOp Value.div s
  | .mod, s => binOp Value.mod s
  | .negate, s => unOp Value.negate s
  | .notOp, s => unOp Value.vnot s
  | .jump, s =>
      match vmNext s with
      | (.error _, s1) => stopVM s1
      | (.ok off, s1) =>
          match fpPlusOffset s1.fp off with
          | .error _ => stopVM s1
          | .ok f2 => { s1 with fp := f2 }
  | .jumpIfFalse, s =>
      match vmNext s with
      | (.error _, s1) => stopVM s1
      | (.ok off, s1) =>
          let r := pop s1
          match r.1 with
          | .val vc =>
              match vc.vnot with
              | .error _ => stopVM r.2
              | .ok cond =>
                  match condGetValue cond with
                  | .error _ => stopVM r.2
                  | .ok b =>
                      if b then
                        match fpPlusOffset r.2.fp off with
                        | .error _ => stopVM r.2
                        | .ok f2 => { r.2 with fp := f2 }
                      else r.2
          | _ => stopVM r.2
  | .dup, s => push s (vmPeek s)
  | .call, s =>
      match vmNext s with
      | (.error _, s1) => stopVM s1
      | (.ok argCount, s1) =>
          match vmNext s1 with
          | (.error _, s2) => stopVM s2
          | (.ok idx, s2) =>
              let identifier := constGet s2.constants idx
              match getIdentifier s2 identifier with
              | none => stopVM s2
              | some fnSlot =>
                  match fnSlot with
                  | .val (.native fnId _) =>
                      match argCount with
                      | none =>
                          let ret := host fnId [.undefined]
                          if ret = .undefined then s2 else push s2 ret
                      | some n =>
                          if n < 0 then stopVM s2
                          else
                            let r := popN s2 n.toNat
                            let ret := host fnId r.1
                            if ret = .undefined then r.2 else push r.2 ret
                  | .val (.fn _ fargs code) =>
                      if (match argCount with
                          | some n => decide ((fargs.length : Int) = n)
                          | none => false) then
                        let r := bindArgs fargs s2
                        let s4 := pushEnv r.2 r.1
                        pushFrame s4 code
                      else s2
                  | .val _ => stopVM s2
                  | _ => stopVM s2
  | .ret, s =>
      if s.frameIdx = 0 then stopVM s
      else
        let r1 := pop s
        let r2 := pop r1.2
        let s3 := { r2.2 with
          fp := r2.1, frames := r2.2.frames.dropLast, frameIdx := r2.2.frameIdx - 1 }
        popEnv (push s3 r1.1)
  | .dot, s => binOp Value.dot s
  | .isOp, s => binOp Value.is s
  | .importOp, s =>
      match vmNext s with
      | (.error _, s1) => stopVM s1
      | (.ok idx, s1) =>
          let modIdent := constGet s1.constants idx
          match modIdent.toStr with
          | .error _ => stopVM s1
          | .ok key =>
              match s1.libraries.find? (fun kv => kv.1 == key) with
              | none => stopVM s1
              | some kv =>
                  match s1.envs with
                  | [] => stopVM s1
                  | e :: rest => { s1 with envs := envMerge e kv.2 :: rest }
  | .undefKey, s =>
      let r1 := pop s
      let r2 := pop r1.2
      stopVM r2.2

/-- VM.#step: fetch the op (outside the try: a missing frame array
throws uncaught, leaving the state with only the fp increment), then
run the handler for it inside the try (no handler, or a throw inside
one, stops the VM). -/
def vmStep (host : ℕ → List JSVal → JSVal) (s : VMState) : VMState :=
  match vmNext s with
  | (.error _, s1) => s1
  | (.ok op, s1) =>
      match decodeOp op with
      | none => stopVM s1
      | some k => execOp host k s1

/-- The global environment built by VM.#initGlobalEnv: the four Type
values and the three built-in natives (host-table identifiers 0, 1, 2
with the arities of the source; the caster identifiers are likewise
host-table tags). -/
def globalEnv : Env :=
  [(.str "bool", .val (.type 0 0)),
   (.str "number", .val (.type 1 1)),
   (.str "string", .val (.type 2 2)),
   (.str "function", .val (.type 3 3)),
   (.str "__needs_update", .val (.native 0 0)),
   (.str "__needs_draw", .val (.native 1 0)),
   (.str "print", .val (.native 2 (-1)))]

/-- The state after load(source): one root frame, pc 0, the compiled
constants, a fresh global env, an empty value stack. -/
def loadState (constants : List JSVal) (code : List Int) (libs : List (String × Env)) : VMState :=
  { frames := [code], frameIdx := 0, fp := .raw (some 0), status := 0,
    constants := constants, libraries := libs, envs := [globalEnv], stack := [] }

/-- The states the VM can reach: a loaded program, a #step from a
reachable state (step(), run()/multi_step() and the kernel all go
through #step), and the status changes of run/pause/stop. -/
inductive Reachable (host : ℕ → List JSVal → JSVal) : VMState → Prop
  | load : ∀ constants code libs, Reachable host (loadState constants code libs)
  | step : ∀ s, Reachable host s → Reachable host (vmStep host s)
  | setStatus : ∀ s st, Reachable host s → Reachable host { s with status := st }

/-- The resource bounds of the two quota-guarded stacks. -/
def StackOK (s : VMState) : Prop := s.stack.length ≤ 65536 ∧ s.envs.length ≤ 256

theorem stackok_push {s : VMState} (h : StackOK s) (v : JSVal) : StackOK (push s v) := by
  obtain ⟨h1, h2⟩ := h
  unfold push
  split
  · exact ⟨h1, h2⟩
  · rename_i hne
    refine ⟨?_, h2⟩
    simp only [List.length_cons]
    omega

theorem stackok_pop {s : VMState} (h : StackOK s) : StackOK (pop s).2 := by
  obtain ⟨h1, h2⟩ := h
  refine ⟨?_, h2⟩
  simp only [pop, List.length_tail]
  omega

theorem stackok_pushEnv {s : VMState} (h : StackOK s) (e : Env) : StackOK (pushEnv s e) := by
  obtain ⟨h1, h2⟩ := h
  unfold pushEnv
  split
  · exact ⟨h1, h2⟩
  · rename_i hne
    refine ⟨h1, ?_⟩
    simp only [List.length_cons]
    omega

theorem stackok_popEnv {s : VMState} (h : StackOK s) : StackOK (popEnv s) := by
  obtain ⟨h1, h2⟩ := h
  refine ⟨h1, ?_⟩
  simp only [popEnv, List.length_tail]
  omega

theorem stackok_stop {s : VMState} (h : StackOK s) : StackOK (stopVM s) := h

theorem vmNext_snd (s : VMState) :
    (vmNext s).2.stack = s.stack ∧ (vmNext s).2.envs = s.envs
    ∧ (vmNext s).2.constants = s.constants := by
  unfold vmNext
  cases h : jsToNumber s.fp with
  | error e => simp only [h]; exact ⟨trivial, trivial, trivial⟩
  | ok q =>
      simp only [h]
      cases s.frames.get? s.frameIdx <;> exact ⟨rfl, rfl, rfl⟩

theorem vmNext_stackok {s : VMState} (h : StackOK s) {r : Except Unit (Option Int)} {s1 : VMState}
    (he : vmNext s = (r, s1)) : StackOK s1 := by
  have h2 : s1 = (vmNext s).2 := by rw [he]
  obtain ⟨hst, hen, -⟩ := vmNext_snd s
  rw [h2]
  exact ⟨by rw [hst]; exact h.1, by rw [hen]; exact h.2⟩

theorem stackok_pushFrame {s : VMState} (h : StackOK s) (code : List Int) :
    StackOK (pushFrame s code) := by
  have := stackok_push h s.fp
  exact ⟨this.1, this.2⟩

theorem stackok_binOp {s : VMState} (h : StackOK s) (f : Value → JSVal → Except Unit Value) :
    StackOK (binOp f s) := by
  simp only [binOp]
  have h2 := stackok_pop (stackok_pop h)
  split
  · split
    · exact stackok_push h2 _
    · exact stackok_stop h2
  · exact stackok_stop h2

theorem stackok_unOp {s : VMState} (h : StackOK s) (f : Value → Except Unit Value) :
    StackOK (unOp f s) := by
  simp only [unOp]
  have h2 := stackok_pop h
  split
  · split
    · exact stackok_push h2 _
    · exact stackok_stop h2
  · exact stackok_stop h2

theorem stackok_popN {s : VMState} (h : StackOK s) (n : ℕ) : StackOK (popN s n).2 := by
  induction n generalizing s with
  | zero => exact h
  | succ n ih => exact ih (stackok_pop h)

theorem stackok_bindArgsAux (fargs : List String) : ∀ (acc : Env) (t : VMState), StackOK t →
    StackOK (List.foldl (fun acc a =>
      let r := pop acc.2
      (envSet acc.1 (.str a) r.1, r.2)) (acc, t) fargs).2 := by
  induction fargs with
  | nil => intro acc t ht; exact ht
  | cons b bs ih =>
      intro acc t ht
      simp only [List.foldl_cons]
      exact ih _ _ (stackok_pop ht)

theorem stackok_bindArgs {s : VMState} (h : StackOK s) (fargs : List String) :
    StackOK (bindArgs fargs s).2 := by
  unfold bindArgs
  exact stackok_bindArgsAux fargs [] s h

theorem stackok_addIdentifier {s s3 : VMState} (h : StackOK s) {k v : JSVal}
    (he : addIdentifier s k v = .ok s3) : StackOK s3 := by
  unfold addIdentifier at he
  cases henv : s.envs with
  | nil =>
      rw [henv] at he
      exact absurd he (by simp)
  | cons e rest =>
      simp only [henv] at he
      split at he
      · simp only [Except.ok.injEq] at he
        subst he
        exact h
      · simp only [Except.ok.injEq] at he
        subst he
        refine ⟨h.1, ?_⟩
        have h2 := h.2
        rw [henv] at h2
        simpa using h2

theorem stackok_setIdentifier {s s3 : VMState} (h : StackOK s) {k v : JSVal}
    (he : setIdentifierVM s k v = .ok s3) : StackOK s3 := by
  unfold setIdentifierVM at he
  split at he
  · simp only [Except.ok.injEq] at he
    subst he
    exact ⟨h.1, by simp; exact h.2⟩
  · cases henv : s.envs with
    | nil =>
        rw [henv] at he
        exact absurd he (by simp)
    | cons e rest =>
        simp only [henv] at he
        simp only [Except.ok.injEq] at he
        subst he
        refine ⟨h.1, ?_⟩
        have h2 := h.2
        rw [henv] at h2
        simpa using h2

theorem stackok_execOp (host : ℕ → List JSVal → JSVal) (k : OpK) (s : VMState)
    (h : StackOK s) : StackOK (execOp host k s) := by
  cases k with
  | getConst =>
      simp only [execOp]
      rcases hv : vmNext s with ⟨r, s1⟩
      have hs1 := vmNext_stackok h hv
      cases r with
      | error e => simp only [hv]; exact stackok_stop hs1
      | ok op => simp only [hv]; exact stackok_push hs1 _
  | defVar =>
      simp only [execOp]
      rcases hv : vmNext s with ⟨r, s1⟩
      have hs1 := vmNext_stackok h hv
      cases r with
      | error e => simp only [hv]; exact stackok_stop hs1
      | ok op =>
          simp only [hv]
          split
          · rename_i s3 heq
            exact stackok_addIdentifier (stackok_pop hs1) heq
          · exact stackok_stop (stackok_pop hs1)
  | getVar =>
      simp only [execOp]
      rcases hv : vmNext s with ⟨r, s1⟩
      have hs1 := vmNext_stackok h hv
      cases r with
      | error e => simp only [hv]; exact stackok_stop hs1
      | ok op =>
          simp only [hv]
          split
          · exact stackok_push hs1 _
          · exact stackok_push hs1 _
  | setVar =>
      simp only [execOp]
      rcases hv : vmNext s with ⟨r, s1⟩
      have hs1 := vmNext_stackok h hv
      cases r with
      | error e => simp only [hv]; exact stackok_stop hs1
      | ok op =>
          simp only [hv]
          split
          · rename_i s3 heq
            exact stackok_setIdentifier (stackok_pop hs1) heq
          · exact stackok_stop (stackok_pop hs1)
  | pushTrue => exact stackok_push h _
  | pushFalse => exact stackok_push h _
  | popOp => exact stackok_pop h
  | equal => exact stackok_binOp h _
  | notEqual => exact stackok_binOp h _
  | greater => exact stackok_binOp h _
  | greaterEqual => exact stackok_binOp h _
  | less => exact stackok_binOp h _
  | lessEqual => exact stackok_binOp h _
  | add => exact stackok_binOp h _
  | sub => exact stackok_binOp h _
  | mul => exact stackok_binOp h _
  | div => exact stackok_binOp h _
  | mod => exact stackok_binOp h _
  | negate => exact stackok_unOp h _
  | notOp => exact stackok_unOp h _
  | jump =>
      simp only [execOp]
      rcases hv : vmNext s with ⟨r, s1⟩
      have hs1 := vmNext_stackok h hv
      cases r with
      | error e => simp only [hv]; exact stackok_stop hs1
      | ok op =>
          simp only [hv]
          split
          · exact stackok_stop hs1
          · exact hs1
  | jumpIfFalse =>
      simp only [execOp]
      rcases hv : vmNext s with ⟨r, s1⟩
      have hs1 := vmNext_stackok h hv
      cases r with
      | error e => simp only [hv]; exact stackok_stop hs1
      | ok op =>
          simp only [hv]
          have h2 := stackok_pop hs1
          split
          · split
            · exact stackok_stop h2
            · split
              · exact stackok_stop h2
              · split
                · split
                  · exact stackok_stop h2
                  · exact h2
                · exact h2
          · exact stackok_stop h2
  | dup => exact stackok_push h _
  | call =>
      simp only [execOp]
      rcases hv : vmNext s with ⟨r, s1⟩
      have hs1 := vmNext_stackok h hv
      cases r with
      | error e => simp only [hv]; exact stackok_stop hs1
      | ok argCount =>
          simp only [hv]
          rcases hv2 : vmNext s1 with ⟨r2, s2⟩
          have hs2 := vmNext_stackok hs1 hv2
          cases r2 with
          | error e => simp only [hv2]; exact stackok_stop hs2
          | ok idx =>
              simp only [hv2]
              split
              · exact stackok_stop hs2
              · split
                · -- native path
                  split
                  · split
                    · exact hs2
                    · exact stackok_push hs2 _
                  · split
                    · exact stackok_stop hs2
                    · split
                      · exact stackok_popN hs2 _
                      · exact stackok_push (stackok_popN hs2 _) _
                · -- function path
                  split
                  · exact stackok_pushFrame (stackok_pushEnv (stackok_bindArgs hs2 _) _) _
                  · exact hs2
                · exact stackok_stop hs2
                · exact stackok_stop hs2
  | ret =>
      simp only [execOp]
      split
      · exact stackok_stop h
      · have h2 := stackok_pop (stackok_pop h)
        have h3 : StackOK { (pop (pop s).2).2 with
            fp := (pop (pop s).2).1, frames := (pop (pop s).2).2.frames.dropLast,
            frameIdx := (pop (pop s).2).2.frameIdx - 1 } := h2
        exact stackok_popEnv (stackok_push h3 _)
  | dot => exact stackok_binOp h _
  | isOp => exact stackok_binOp h _
  | importOp =>
      simp only [execOp]
      rcases hv : vmNext s with ⟨r, s1⟩
      have hs1 := vmNext_stackok h hv
      cases r with
      | error e => simp only [hv]; exact stackok_stop hs1
      | ok idx =>
          simp only [hv]
          split
          · exact stackok_stop hs1
          · split
            · exact stackok_stop hs1
            · split
              · exact stackok_stop hs1
              · rename_i heq
                refine ⟨hs1.1, ?_⟩
                have h2 := hs1.2
                rw [heq] at h2
                simpa using h2
  | undefKey => exact stackok_stop (stackok_pop (stackok_pop h))

theorem stackok_vmStep (host : ℕ → List JSVal → JSVal) (s : VMState) (h : StackOK s) :
    StackOK (vmStep host s) := by
  unfold vmStep
  rcases hv : vmNext s with ⟨r, s1⟩
  have hs1 := vmNext_stackok h hv
  cases r with
  | error e => simp only [hv]; exact hs1
  | ok op =>
      simp only [hv]
      cases hd : decodeOp op with
      | none => simp only [hd]; exact stackok_stop hs1
      | some k => simp only [hd]; exact stackok_execOp host k s1 hs1

/-- Claim C9: at every reachable VM state the value stack holds at
most 65,536 entries and the env stack at most 256; a push at the bound
is returned unchanged (silently discarded, no error raised), as is a
pushEnv at its bound. -/
theorem vm_stack_bounds (host : ℕ → List JSVal → JSVal) (s : VMState)
    (h : Reachable host s) :
    (s.stack.length ≤ 65536 ∧ s.envs.length ≤ 256)
    ∧ (∀ v, s.stack.length = 65536 → push s v = s)
    ∧ (∀ e, s.envs.length = 256 → pushEnv s e = s) := by
  have hb : StackOK s := by
    induction h with
    | load constants code libs =>
        exact ⟨by simp [loadState], by simp [loadState]⟩
    | step t ht ih => exact stackok_vmStep host t ih
    | setStatus t st ht ih => exact ih
  refine ⟨hb, ?_, ?_⟩
  · intro v hv
    unfold push
    rw [if_pos hv]
  · intro e he
    unfold pushEnv
    rw [if_pos he]

/-- Witness for C9 at a freshly loaded empty program. -/
theorem vm_stack_bounds_witness :
    (loadState [] [] [] : VMState).stack.length ≤ 65536
    ∧ (loadState [] [] [] : VMState).envs.length ≤ 256 :=
  (vm_stack_bounds (fun _ _ => .undefined) (loadState [] [] []) (Reachable.load [] [] [])).1

def JSVal.isValue : JSVal → Bool
  | .val _ => true
  | _ => false

instance {ε α : Type} [DecidableEq ε] [DecidableEq α] : DecidableEq (Except ε α)
  | .error e1, .error e2 =>
      if h : e1 = e2 then isTrue (by rw [h]) else isFalse (by simp [h])
  | .error _, .ok _ => isFalse (by simp)
  | .ok _, .error _ => isFalse (by simp)
  | .ok a1, .ok a2 =>
      if h : a1 = a2 then isTrue (by rw [h]) else isFalse (by simp [h])

def host0 : ℕ → List JSVal → JSVal := fun _ _ => .undefined

def hostBool : ℕ → List JSVal → JSVal := fun _ _ => .val (.bool true)

/-- A loaded state about to execute CALL 0 "f" where f is the
user Function with empty parameter list and body [RETURN]. -/
def demoCallState : VMState :=
  { frames := [[23, 0, 0]], frameIdx := 0, fp := .raw (some 0), status := 2,
    constants := [.str "f"], libraries := [],
    envs := [[(.str "f", .val (.fn "f" [] [24]))]], stack := [] }

/-- Claim C2 counterexample: executing CALL into a Function value
pushes the saved program counter as a raw host number onto the VALUE
stack - after one step the stack is [raw 3], an entry that is not a
Value. There is no separate integer stack in vm.js. -/
theorem vm_call_pushes_raw_pc_counterexample :
    (vmStep host0 demoCallState).stack = [JSVal.raw (some 3)]
    ∧ JSVal.isValue (JSVal.raw (some 3)) = false := by
  exact ⟨by decide, by decide⟩

/-- Claim C2 amended: the saved pc shares the value stack. pushFrame
(run by CALL into a Function) pushes the current fp - at that point a
raw host number - onto the value stack before resetting the pc, and
RETURN in a non-root frame pops the return value, then pops the saved
pc from the value stack and assigns it to fp raw (the conversion to a
number happens only at the next op fetch), drops the frame and env,
and re-pushes the return value. -/
theorem vm_pc_on_value_stack (host : ℕ → List JSVal → JSVal) (s : VMState) (code : List Int)
    (rv pcv : JSVal) (rest : List JSVal)
    (hlen : s.stack.length < 65536) :
    ((pushFrame s code).stack = s.fp :: s.stack
      ∧ (pushFrame s code).frames = s.frames ++ [code]
      ∧ (pushFrame s code).frameIdx = s.frameIdx + 1
      ∧ (pushFrame s code).fp = .raw (some 0))
    ∧ (s.frameIdx ≠ 0 → s.stack = rv :: pcv :: rest →
        (execOp host .ret s).stack = rv :: rest
        ∧ (execOp host .ret s).fp = pcv
        ∧ (execOp host .ret s).frames = s.frames.dropLast
        ∧ (execOp host .ret s).frameIdx = s.frameIdx - 1
        ∧ (execOp host .ret s).envs = s.envs.tail) := by
  constructor
  · unfold pushFrame push
    rw [if_neg (by omega)]
    exact ⟨rfl, rfl, rfl, rfl⟩
  · intro hidx hst
    have hrest : rest.length < 65536 := by
      have := hlen
      rw [hst] at this
      simp at this
      omega
    simp only [execOp]
    rw [if_neg hidx]
    simp only [pop, hst, List.headD_cons, List.tail_cons]
    unfold push
    simp only []
    rw [if_neg (by omega)]
    exact ⟨rfl, rfl, rfl, rfl, rfl⟩

/-- Witness for C2 amended: the single step of the counterexample
state, followed by the RETURN of the pushed frame. -/
theorem vm_pc_on_value_stack_witness :
    (pushFrame demoCallState [24]).stack = [JSVal.raw (some 0)]
    ∧ (execOp host0 .ret
        { demoCallState with frameIdx := 1, stack := [.val (.bool true), .raw (some 3)] }).stack
      = [JSVal.val (.bool true)] := by
  constructor
  · exact ((vm_pc_on_value_stack host0 demoCallState [24] JSVal.undefined JSVal.undefined []
      (by decide)).1).1
  · exact ((vm_pc_on_value_stack host0
      { demoCallState with frameIdx := 1, stack := [.val (.bool true), .raw (some 3)] }
      [24] (.val (.bool true)) (.raw (some 3)) [] (by decide)).2 (by decide) rfl).1

/-- A loaded state about to execute GET_VARIABLE "x" with "x" bound in
no environment. -/
def demoGetVarState : VMState :=
  { frames := [[2, 0]], frameIdx := 0, fp := .raw (some 0), status := 2,
    constants := [.str "x"], libraries := [], envs := [globalEnv], stack := [] }

/-- Claim C4 counterexample: GET_VARIABLE of an unbound name pushes the
host-level undefined (not a Value - vm.js defines no UndefinedValue and
#getIdentifier returns bare undefined), leaving the env stack alone. -/
theorem vm_get_variable_missing_counterexample :
    (vmStep host0 demoGetVarState).stack = [JSVal.undefined]
    ∧ JSVal.isValue JSVal.undefined = false
    ∧ (vmStep host0 demoGetVarState).envs = demoGetVarState.envs := by
  exact ⟨by decide, by decide, by decide⟩

/-- Claim C4 amended: executing GET_VARIABLE for a name present in no
environment on the env stack pushes the host-level undefined (a
non-Value entry) onto the value stack and leaves the env stack
unchanged. -/
theorem vm_get_variable_missing (host : ℕ → List JSVal → JSVal) (s s1 : VMState)
    (idx : Option Int)
    (hn : vmNext s = (.ok idx, s1))
    (hmiss : ∀ e ∈ s1.envs, envHas e (constGet s1.constants idx) = false)
    (hlen : s1.stack.length < 65536) :
    (execOp host .getVar s).stack = JSVal.undefined :: s1.stack
    ∧ (execOp host .getVar s).envs = s.envs := by
  have hfind : getIdentifier s1 (constGet s1.constants idx) = none := by
    unfold getIdentifier
    rw [List.find?_eq_none.mpr]
    intro e he
    simp [hmiss e he]
  have henvs : s1.envs = s.envs := by
    have h2 : s1 = (vmNext s).2 := by rw [hn]
    rw [h2]
    exact (vmNext_snd s).2.1
  simp only [execOp, hn, hfind]
  unfold push
  rw [if_neg (by omega)]
  exact ⟨rfl, henvs⟩

/-- Witness for C4 amended at the counterexample state. -/
theorem vm_get_variable_missing_witness :
    (execOp host0 .getVar { demoGetVarState with fp := .raw (some 1) }).stack
      = [JSVal.undefined] := by
  have h := vm_get_variable_missing host0 { demoGetVarState with fp := .raw (some 1) }
    { demoGetVarState with fp := .raw (some 2) } (some 0) (by decide) (by decide) (by decide)
  exact h.1

/-- A loaded state about to execute CALL 0 "g" where g is a
NativeFunction of arity 2 (called here with zero arguments). -/
def demoNativeState : VMState :=
  { frames := [[23, 0, 0]], frameIdx := 0, fp := .raw (some 0), status := 2,
    constants := [.str "g"], libraries := [],
    envs := [[(.str "g", .val (.native 5 2))]], stack := [] }

/-- Claim C3 counterexample: the VM calls a native of arity 2 with 0
arguments and no arity error is raised - the host callable runs (its
non-undefined return is pushed), and when the host returns undefined
nothing at all is pushed (no Undefined value is synthesized). -/
theorem vm_native_call_counterexample :
    (vmStep host0 demoNativeState).stack = []
    ∧ (vmStep host0 demoNativeState).status = 2
    ∧ (vmStep hostBool demoNativeState).stack = [JSVal.val (.bool true)] := by
  exact ⟨by decide, by decide, by decide⟩

/-- Claim C3 amended, part 1: NativeFunctionValue.call checks the arity
(unless variadic) and otherwise passes the host return through
unchanged - no normalization of non-Value returns to Undefined. -/
theorem native_function_call_amended (host : ℕ → List JSVal → JSVal) (fnId : ℕ)
    (arity : Int) (args : List JSVal) :
    (arity ≠ -1 → (args.length : Int) ≠ arity →
      NativeFunctionValue.call host fnId arity args
        = .val (.err ("error calling " ++ nativeToString arity ++ " (expected "
            ++ toString arity ++ " arguments, received " ++ toString args.length ++ ")")))
    ∧ (arity = -1 ∨ (args.length : Int) = arity →
      NativeFunctionValue.call host fnId arity args = host fnId args) := by
  constructor
  · intro h1 h2
    unfold NativeFunctionValue.call
    rw [if_pos ⟨h1, h2⟩]
  · intro h
    unfold NativeFunctionValue.call
    rw [if_neg]
    rcases h with h | h
    · simp [h]
    · simp [h]

/-- Claim C3 amended, part 2: the VM CALL handler for a native function
performs no arity check at all - for any declared arity, it pops the
announced argument count, invokes the host callable directly, and
pushes the return only when it is not undefined; an undefined host
return pushes nothing. -/
theorem vm_native_call_amended (host : ℕ → List JSVal → JSVal) (s s1 s2 : VMState)
    (n : Int) (idx : Option Int) (fnId : ℕ) (arity : Int)
    (hn1 : vmNext s = (.ok (some n), s1))
    (hn2 : vmNext s1 = (.ok idx, s2))
    (hident : getIdentifier s2 (constGet s2.constants idx) = some (.val (.native fnId arity)))
    (hpos : 0 ≤ n) :
    (host fnId (popN s2 n.toNat).1 = .undefined →
      execOp host .call s = (popN s2 n.toNat).2)
    ∧ (host fnId (popN s2 n.toNat).1 ≠ .undefined →
      execOp host .call s = push (popN s2 n.toNat).2 (host fnId (popN s2 n.toNat).1)) := by
  simp only [execOp, hn1, hn2, hident]
  rw [if_neg (by omega)]
  constructor
  · intro h
    rw [if_pos h]
  · intro h
    rw [if_neg h]

/-- Witness for C3 amended: arity-2 native called with 0 and 2
arguments through NativeFunctionValue.call, and the VM step of the
counterexample state. -/
theorem vm_native_call_amended_witness :
    NativeFunctionValue.call hostBool 5 2 [JSVal.undefined, JSVal.undefined]
      = JSVal.val (.bool true)
    ∧ execOp hostBool .call { demoNativeState with fp := .raw (some 1) }
      = push { demoNativeState with fp := .raw (some 3) } (JSVal.val (.bool true)) := by
  constructor
  · exact (native_function_call_amended hostBool 5 2 [JSVal.undefined, JSVal.undefined]).2
      (Or.inr (by decide))
  · have h := vm_native_call_amended hostBool { demoNativeState with fp := .raw (some 1) }
      { demoNativeState with fp := .raw (some 2) } { demoNativeState with fp := .raw (some 3) }
      0 (some 0) 5 2 (by decide) (by decide) (by decide) (by decide)
    exact h.2 (by decide)
